import Mathlib

/-!
# gh-projects: iteration rollover

A shallow embedding of the iteration resolver (`Manager.GetIterations`,
`internal/projects/manager.go`), the issue filter (`FilterIncompleteIssues`,
`internal/projects/filter.go`) and the mutation loop of `runIterationRollover`
(`internal/commands/iteration.go`, `internal/ui/prompt.go`), the project URL parser
(`Client.ParseProjectURL`, `internal/github/client.go`) and the paginated item fetcher
(`Manager.GetIterationItems`, `internal/projects/manager.go`), followed by the
properties proved about them.

Modelling conventions.

* A `time.Time` is the instant it denotes, a number of nanoseconds since the Unix
  epoch whose count of seconds since the year 1 fits in 64 bits, as it does in Go.
  Start dates come from `time.Parse("2006-01-02", ...)`, hence are UTC, and for a UTC
  time `t.AddDate(0, 0, d)` is the instant `d` times 24 hours later when that instant
  is such a time; when it is not, the count of seconds wraps around modulo 2^64, as
  it does in Go.
* A Go `int` is an `Int`: the definitions take any integer, those of 64 bits among
  them, and where Go converts a `float64` to an `int` the conversion is modelled.
* `sort.Slice` is not a stable sort: the resolver takes the sort as an argument, of
  which only the contract of `sort.Slice` is assumed.
* A nil pointer is `none`; an `error` result is the `Except` error case.
* Output written by `fmt.Print*` is the list of the chunks printed, in order; the
  diagnostics written by `log.Printf` are left out.
* What the program obtains from outside (the clock, the GraphQL responses, the lines
  typed at the prompts) is an argument of the definition that uses it.
* In the fetcher a type assertion without `ok` that fails is a panic: the functions that
  can panic return an `Option`, with `none` for the panic. A loop that need not end is
  given a number of rounds, and a run that uses them up is marked unfinished.
-/

namespace GhProjects

/-! ## Time -/

/-- Nanoseconds in the 24 hours that `AddDate(0, 0, 1)` adds to a UTC time. -/
def nsPerDay : Int := 86400 * 1000000000

/-- Go `unixToInternal`: the seconds from January 1 of the year 1 to the Unix epoch. -/
def unixToInternal : Int := 62135596800

/-- The instant `t`, in nanoseconds since the Unix epoch, is one a `time.Time` can hold:
its seconds since January 1 of the year 1 fit in an `int64`. -/
def Representable (t : Int) : Prop :=
  -9223372036854775808 ≤ t / 1000000000 + unixToInternal ∧
    t / 1000000000 + unixToInternal < 9223372036854775808

instance : DecidablePred Representable := fun t => by unfold Representable; infer_instance

/-- A Go `time.Time`, without its location and its monotonic reading, neither of which the
comparisons made here read: the instant in nanoseconds since the Unix epoch, which splits
into the `int64` seconds and the nanoseconds below one second that Go keeps. -/
structure Time where
  unixNano : Int
  inRange : Representable unixNano
deriving DecidableEq, Repr

/-- The value an `int64` computation yields for the integer `x`: the integer between
-2^63 and 2^63 - 1 that differs from `x` by a multiple of 2^64. -/
def wrapInt64 (x : Int) : Int :=
  (x + 9223372036854775808) % 18446744073709551616 - 9223372036854775808

/-- Go `t.After(u)`. -/
def After (t u : Time) : Bool := decide (u.unixNano < t.unixNano)

/-- Go `t.Before(u)`. -/
def Before (t u : Time) : Bool := decide (t.unixNano < u.unixNano)

/-- Go `t.Equal(u)`. -/
def Equal (t u : Time) : Bool := decide (t.unixNano = u.unixNano)

/-- Go `t.AddDate(0, 0, days)` on a UTC time. `AddDate` calls `time.Date` with the day of
the month raised by `days`, and `time.Date` computes the seconds of that date in 64-bit
arithmetic, which wraps: the result keeps the nanoseconds of `t`, and its seconds since
the year 1 are those of `t` plus `days` times 86400, taken modulo 2^64 into the `int64`
range. As long as nothing overflows this is the instant `days` times 24 hours later. -/
def AddDays (t : Time) (days : Int) : Time :=
  { unixNano :=
      (wrapInt64 (t.unixNano / 1000000000 + unixToInternal + days * 86400) - unixToInternal)
        * 1000000000 + t.unixNano % 1000000000
    inRange := by
      unfold Representable wrapInt64 unixToInternal
      omega }

/-- Days from 1970-01-01 to the civil date `y-m-d` (proleptic Gregorian calendar,
`y ≥ 1`): the day count behind `time.Parse("2006-01-02", ...)`. -/
def daysFromCivil (y m d : Nat) : Int :=
  let y1 : Nat := if m ≤ 2 then y - 1 else y
  let era : Nat := y1 / 400
  let yoe : Nat := y1 - era * 400
  let mp : Nat := (m + 9) % 12
  let doy : Nat := (153 * mp + 2) / 5 + d - 1
  let doe : Nat := yoe * 365 + yoe / 4 - yoe / 100 + doy
  (era * 146097 + doe : Nat) - 719468

/-- Midnight UTC of the civil date `y-m-d`, in nanoseconds since the Unix epoch, as
`time.Parse("2006-01-02", ...)` returns it. -/
def ParseDate (y m d : Nat) : Int := daysFromCivil y m d * nsPerDay

/-- The time at `offset` nanoseconds after midnight UTC of the civil date `y-m-d`. -/
def timeOn (y m d : Nat) (offset : Int) (h : Representable (ParseDate y m d + offset)) :
    Time :=
  { unixNano := ParseDate y m d + offset, inRange := h }

/-! ## Data model (`internal/github/types.go`) -/

/-- The anonymous `Field struct { ID, Name string }` of `Iteration` and `FieldValue`. -/
structure FieldRef where
  ID : String
  Name : String
deriving DecidableEq, Repr

/-- Go `github.Iteration`. -/
structure Iteration where
  ID : String
  Title : String
  StartDate : Time
  Duration : Int
  Field : FieldRef
deriving DecidableEq, Repr

/-- Go `github.FieldValue`. -/
structure FieldValue where
  TypeName : String
  Field : FieldRef
  Title : String
  Duration : Int
  ID : String
deriving DecidableEq, Repr

/-- The anonymous `FieldValues struct { Nodes []FieldValue }`. -/
structure FieldValueList where
  Nodes : List FieldValue
deriving DecidableEq, Repr

/-- One element of `Issue.ProjectItems.Nodes`. -/
structure ProjectItem where
  ID : String
  FieldValues : FieldValueList
deriving DecidableEq, Repr

/-- The anonymous `ProjectItems struct { Nodes []struct {...} }`. -/
structure ProjectItemList where
  Nodes : List ProjectItem
deriving DecidableEq, Repr

/-- The anonymous `Owner struct { Login string }`. -/
structure OwnerRef where
  Login : String
deriving DecidableEq, Repr

/-- The anonymous `Repository struct { Name string; Owner struct {...} }`. -/
structure RepositoryRef where
  Name : String
  Owner : OwnerRef
deriving DecidableEq, Repr

/-- Go `github.Issue`. -/
structure Issue where
  ID : String
  Number : Int
  Title : String
  State : String
  Repository : RepositoryRef
  ProjectItems : ProjectItemList
deriving DecidableEq, Repr

/-! ## Iteration resolver (`Manager.GetIterations`, manager.go lines 131-196) -/

/-- Go `projects.IterationInfo`. -/
structure IterationInfo where
  Current : Iteration
  Previous : Iteration
  FieldID : String
deriving DecidableEq, Repr

/-- The two failures of the resolver (manager.go lines 180 and 185). -/
inductive ResolveError where
  | NoCurrentIteration
  | NoPreviousIteration
deriving DecidableEq, Repr

/-- The message of each failure, as passed to `fmt.Errorf`. -/
def ResolveError.message : ResolveError → String
  | .NoCurrentIteration => "no current or future iteration found"
  | .NoPreviousIteration =>
      "no previous iteration found - need at least 2 iterations to perform rollover"

/-- The end of an iteration as the code computes it:
`iter.StartDate.AddDate(0, 0, iter.Duration)` (line 139). -/
def endDate (iter : Iteration) : Time := AddDays iter.StartDate iter.Duration

/-- The comparison `sort.Slice` is called with (line 132), as a relation "may stay in
front of": `b` is not before `a`. -/
def startLE (a b : Iteration) : Prop := ¬ (Before b.StartDate a.StartDate = true)

instance : DecidableRel startLE := fun a b => by unfold startLE; infer_instance

instance : IsTotal Iteration startLE :=
  ⟨fun a b => by simp only [startLE, Before, decide_eq_true_eq, not_lt]; exact le_total _ _⟩

instance : IsTrans Iteration startLE :=
  ⟨fun a b c => by
    simp only [startLE, Before, decide_eq_true_eq, not_lt]; exact le_trans⟩

/-- The list `l` is in start-date order: no element starts before an earlier one. -/
def StartSorted (l : List Iteration) : Prop :=
  l.Pairwise (fun a b => a.StartDate.unixNano ≤ b.StartDate.unixNano)

/-- What `sort.Slice(parsedIterations, less)` guarantees for the `less` of line 132,
whatever the length of the slice: the result holds the same elements and is in start-date
order. The order it gives iterations with equal start dates is not specified: `sort.Slice`
is not a stable sort. -/
structure SortsByStartDate (sortSlice : List Iteration → List Iteration) : Prop where
  perm : ∀ l, (sortSlice l).Perm l
  sorted : ∀ l, StartSorted (sortSlice l)

/-- One sort that `sort.Slice` may be: sorting by insertion, which is what Go does for the
slices of at most 12 elements. -/
def sortByStartDate (parsedIterations : List Iteration) : List Iteration :=
  parsedIterations.insertionSort startLE

/-- The variables `current` and `previous` of line 135. -/
structure Selection where
  current : Option Iteration
  previous : Option Iteration
deriving DecidableEq, Repr

/-- The scan of lines 138-166 from index `i` on: `rest` is `parsedIterations[i:]`, and a
`break` is the return of the selection without recursion. -/
def scanFrom (parsedIterations : List Iteration) (now : Time) :
    List Iteration → Nat → Selection → Selection
  | [], _, sel => sel
  | iter :: rest, i, sel =>
    if (!After iter.StartDate now && After (endDate iter) now) = true then
      { current := some iter
        previous := if 0 < i then parsedIterations[i - 1]? else sel.previous }
    else if (Before (endDate iter) now || Equal (endDate iter) now) = true then
      scanFrom parsedIterations now rest (i + 1) { sel with previous := some iter }
    else if (After iter.StartDate now && sel.current.isNone) = true then
      { sel with current := some iter }
    else
      scanFrom parsedIterations now rest (i + 1) sel

/-- The loop of lines 171-176: the first iteration that starts after `now`. -/
def firstFuture (now : Time) : List Iteration → Option Iteration
  | [] => none
  | iter :: rest => if After iter.StartDate now = true then some iter else firstFuture now rest

/-- The resolver proper (lines 135-196) on the sorted slice: the scan, the second pass
and the two failure checks. -/
def resolve (sorted : List Iteration) (fieldID : String) (now : Time) :
    Except ResolveError IterationInfo :=
  let sel := scanFrom sorted now sorted 0 { current := none, previous := none }
  let current :=
    if sel.current.isNone ∧ 0 < sorted.length then firstFuture now sorted else sel.current
  match current with
  | none => .error .NoCurrentIteration
  | some cur =>
    match sel.previous with
    | none => .error .NoPreviousIteration
    | some prev => .ok { Current := cur, Previous := prev, FieldID := fieldID }

/-- The resolver of `Manager.GetIterations` (lines 131-196) on the iterations parsed from
the API response, the id of the iteration field and the value of `time.Now()`: the sort
of lines 131-133, done by `sortSlice`, then the resolver proper. -/
def GetIterations (sortSlice : List Iteration → List Iteration)
    (parsedIterations : List Iteration) (fieldID : String) (now : Time) :
    Except ResolveError IterationInfo :=
  resolve (sortSlice parsedIterations) fieldID now

/-- Iteration A of the worked example: starts 2024-01-01 and lasts 14 days. -/
def iterationA : Iteration :=
  ⟨"A", "Sprint A", timeOn 2024 1 1 0 (by decide), 14, ⟨"F", "Iteration"⟩⟩

/-- Iteration B of the worked example: starts 2024-01-15 and lasts 14 days. -/
def iterationB : Iteration :=
  ⟨"B", "Sprint B", timeOn 2024 1 15 0 (by decide), 14, ⟨"F", "Iteration"⟩⟩

/-- Iteration B moved one week later (starts 2024-01-22), which leaves a gap after A. -/
def iterationLateB : Iteration :=
  ⟨"B", "Sprint B", timeOn 2024 1 22 0 (by decide), 14, ⟨"F", "Iteration"⟩⟩

/-- An iteration with a negative duration: it starts on 2024-01-21 and "ends" 14 days
earlier. -/
def iterationBackwards : Iteration :=
  ⟨"X", "Sprint X", timeOn 2024 1 21 0 (by decide), -14, ⟨"F", "Iteration"⟩⟩

/-- An iteration that starts on 2024-01-15 and lasts 150000000000000 days: its end is
beyond the times of Go, and `AddDate` wraps it to a time long past. -/
def iterationHugeB : Iteration :=
  ⟨"H", "Sprint H", timeOn 2024 1 15 0 (by decide), 150000000000000, ⟨"F", "Iteration"⟩⟩

/-- An iteration that starts on 2024-02-01 and lasts 150000000000000 days. -/
def iterationHuge : Iteration :=
  ⟨"H", "Sprint H", timeOn 2024 2 1 0 (by decide), 150000000000000, ⟨"F", "Iteration"⟩⟩

/-- An iteration that starts on 2024-01-01 and lasts -150000000000000 days: its end is
before the times of Go, and `AddDate` wraps it to a time far ahead. -/
def iterationLongPast : Iteration :=
  ⟨"L", "Sprint L", timeOn 2024 1 1 0 (by decide), -150000000000000, ⟨"F", "Iteration"⟩⟩

/-- Midnight UTC of 2024-01-20, the reference time of the worked example. -/
def jan20 : Time := timeOn 2024 1 20 0 (by decide)

/-! ## Specification vocabulary for the resolver -/

/-- The end of the iteration as the specification has it, start + duration days: an
instant in nanoseconds since the Unix epoch, without bound. -/
def endInstant (iter : Iteration) : Int :=
  iter.StartDate.unixNano + iter.Duration * nsPerDay

/-- The end start + duration days of the iteration is a time Go can hold, so that
`AddDate` does not overflow on it. For a start date of the years 0 to 9999 this is so for
every duration between 0 and 100000000000000 days. -/
def endRepresentable (iter : Iteration) : Prop := Representable (endInstant iter)

instance : DecidablePred endRepresentable :=
  fun iter => by unfold endRepresentable; infer_instance

/-- The half-open window `[start, start + duration days)` of `iter` contains `now`. -/
def windowContains (now : Time) (iter : Iteration) : Prop :=
  iter.StartDate.unixNano ≤ now.unixNano ∧ now.unixNano < endInstant iter

instance (now : Time) : DecidablePred (windowContains now) :=
  fun iter => by unfold windowContains; infer_instance

/-- The iteration `iter` has ended at `now`: its end start + duration days is at or before
`now`. -/
def hasEnded (now : Time) (iter : Iteration) : Prop :=
  endInstant iter ≤ now.unixNano

instance (now : Time) : DecidablePred (hasEnded now) :=
  fun iter => by unfold hasEnded; infer_instance

/-- The iteration `iter` starts after `now`. -/
def startsAfter (now : Time) (iter : Iteration) : Prop :=
  now.unixNano < iter.StartDate.unixNano

instance (now : Time) : DecidablePred (startsAfter now) :=
  fun iter => by unfold startsAfter; infer_instance

/-- The iteration counts as ended in the scan: the end the code computes is at or before
`now` (the test of line 155). -/
def countsAsEnded (now : Time) (iter : Iteration) : Prop :=
  (endDate iter).unixNano ≤ now.unixNano

instance (now : Time) : DecidablePred (countsAsEnded now) :=
  fun iter => by unfold countsAsEnded; infer_instance

/-! ## Issue filter (`internal/projects/filter.go`) -/

/-- Go `strings.ToLower` as far as the comparisons of this program can tell: the ASCII
capital letters are lowered and every other character is kept. The Unicode mapping of Go
lowers further runes, of which only U+0130 and U+212A become ASCII letters, `i` and `k`;
neither letter occurs in the words the results are compared with ("status", "state",
"done", "completed", "closed"). -/
def ToLower (s : String) : String := ⟨s.data.map Char.toLower⟩

/-- The test of lines 35-40 of filter.go on one field value. -/
def marksDone (fieldValue : FieldValue) : Bool :=
  if fieldValue.TypeName = "ProjectV2ItemFieldSingleSelectValue" then
    let fieldName := ToLower fieldValue.Field.Name
    let valueName := ToLower fieldValue.Title
    (fieldName == "status" || fieldName == "state") &&
      (valueName == "done" || valueName == "completed" || valueName == "closed")
  else
    false

/-- The inner loop of lines 34-45: the value of `isDone` after the field values of one
project item, when it was false before. -/
def scanFieldValues : List FieldValue → Bool
  | [] => false
  | fieldValue :: rest => if marksDone fieldValue = true then true else scanFieldValues rest

/-- The outer loop of lines 33-49: the value of `isDone` after the project items of one
issue. -/
def scanProjectItems : List ProjectItem → Bool
  | [] => false
  | projectItem :: rest =>
    if scanFieldValues projectItem.FieldValues.Nodes = true then true
    else scanProjectItems rest

/-- Go `FilterIncompleteIssues` (filter.go lines 23-57). -/
def FilterIncompleteIssues : List Issue → String → List Issue
  | [], _ => []
  | issue :: rest, projectID =>
    if issue.State = "CLOSED" then
      FilterIncompleteIssues rest projectID
    else if (!scanProjectItems issue.ProjectItems.Nodes) = true then
      issue :: FilterIncompleteIssues rest projectID
    else
      FilterIncompleteIssues rest projectID

/-- The test of lines 62-64 of filter.go on one field value. -/
def isStatusField (fieldValue : FieldValue) : Bool :=
  if fieldValue.TypeName = "ProjectV2ItemFieldSingleSelectValue" then
    let fieldName := ToLower fieldValue.Field.Name
    fieldName == "status" || fieldName == "state"
  else
    false

/-- The inner loop of `GetIssueStatus`: the title of the first status field value. -/
def firstStatus : List FieldValue → Option String
  | [] => none
  | fieldValue :: rest =>
    if isStatusField fieldValue = true then some fieldValue.Title else firstStatus rest

/-- The outer loop of `GetIssueStatus`. -/
def firstItemStatus : List ProjectItem → Option String
  | [] => none
  | projectItem :: rest =>
    match firstStatus projectItem.FieldValues.Nodes with
    | some title => some title
    | none => firstItemStatus rest

/-- Go `GetIssueStatus` (filter.go lines 59-71). -/
def GetIssueStatus (issue : Issue) : String :=
  match firstItemStatus issue.ProjectItems.Nodes with
  | some title => title
  | none => "No Status"

/-! ## Specification vocabulary for the filter -/

/-- The strings `s` and `w` are equal up to the case of their letters. -/
def equalsIgnoringCase (s w : String) : Prop := ToLower s = ToLower w

instance : DecidableRel equalsIgnoringCase :=
  fun s w => by unfold equalsIgnoringCase; infer_instance

/-- The lifecycle state of the issue is closed: the API reports the state `CLOSED`. -/
def isClosed (issue : Issue) : Prop := issue.State = "CLOSED"

instance : DecidablePred isClosed := fun issue => by unfold isClosed; infer_instance

/-- The field value is a single-select value of a status or state field that reads done,
completed or closed, whatever the case of the letters. -/
def isDoneValue (fieldValue : FieldValue) : Prop :=
  fieldValue.TypeName = "ProjectV2ItemFieldSingleSelectValue" ∧
  (equalsIgnoringCase fieldValue.Field.Name "status" ∨
    equalsIgnoringCase fieldValue.Field.Name "state") ∧
  (equalsIgnoringCase fieldValue.Title "done" ∨
    equalsIgnoringCase fieldValue.Title "completed" ∨
    equalsIgnoringCase fieldValue.Title "closed")

instance : DecidablePred isDoneValue := fun fv => by unfold isDoneValue; infer_instance

/-- One of the project items of the issue carries a done value. -/
def hasDoneValue (issue : Issue) : Prop :=
  ∃ projectItem ∈ issue.ProjectItems.Nodes,
    ∃ fieldValue ∈ projectItem.FieldValues.Nodes, isDoneValue fieldValue

instance : DecidablePred hasDoneValue := fun issue => by unfold hasDoneValue; infer_instance

/-- The issue is complete in the sense of the specification: closed, or carrying a done
value. -/
def isComplete (issue : Issue) : Prop := isClosed issue ∨ hasDoneValue issue

instance : DecidablePred isComplete := fun issue => by unfold isComplete; infer_instance

/-- An open issue in progress. -/
def issueOpen : Issue :=
  ⟨"I_1", 1, "Write the parser", "OPEN", ⟨"repo", ⟨"octo"⟩⟩,
    ⟨[⟨"PVTI_1", ⟨[⟨"ProjectV2ItemFieldSingleSelectValue", ⟨"FS", "Status"⟩, "In Progress",
      0, ""⟩]⟩⟩]⟩⟩

/-- A closed issue without field values. -/
def issueClosed : Issue :=
  ⟨"I_2", 2, "Fix the build", "CLOSED", ⟨"repo", ⟨"octo"⟩⟩, ⟨[⟨"PVTI_2", ⟨[]⟩⟩]⟩⟩

/-- An open issue whose status reads DONE. -/
def issueDone : Issue :=
  ⟨"I_3", 3, "Update the docs", "OPEN", ⟨"repo", ⟨"octo"⟩⟩,
    ⟨[⟨"PVTI_3", ⟨[⟨"ProjectV2ItemFieldSingleSelectValue", ⟨"FS", "STATUS"⟩, "DONE",
      0, ""⟩]⟩⟩]⟩⟩

/-- An open issue without a status. -/
def issueBare : Issue :=
  ⟨"I_4", 4, "Triage the backlog", "OPEN", ⟨"repo", ⟨"octo"⟩⟩, ⟨[⟨"PVTI_4", ⟨[]⟩⟩]⟩⟩

/-! ## Rollover command (`internal/commands/iteration.go`, `internal/ui/prompt.go`) -/

/-- Go `commands.BaseCommand`. -/
structure BaseCommand where
  ProjectURL : String
  DryRun : Bool
  Silent : Bool
  Token : String
deriving DecidableEq, Repr

/-- The variables of one `UpdateItemIterationMutation` request (manager.go lines
313-318). -/
structure UpdateCall where
  projectId : String
  itemId : String
  fieldId : String
  iterationId : String
deriving DecidableEq, Repr

/-- What the command reads from outside during a run. -/
structure World where
  /-- The error `m.client.GraphQL` returns for the update request made after `n` earlier
  update requests, `none` for success. -/
  graphQLUpdate : Nat → UpdateCall → Option String
  /-- The value of `response` (prompt.go line 45) at the prompt made after `n` earlier
  prompts: the line read from standard input, trimmed and lowered. -/
  response : Nat → String

/-- The effects of a run so far: the chunks printed, the update requests made with the
error each returned, and the number of prompts answered. -/
structure RunState where
  out : List String
  updates : List (UpdateCall × Option String)
  prompts : Nat
deriving DecidableEq, Repr

/-- One `fmt.Print`, `fmt.Printf` or `fmt.Println` (the latter with its newline in
`chunk`). -/
def RunState.print (st : RunState) (chunk : String) : RunState :=
  { st with out := st.out ++ [chunk] }

/-- How a run ends: `runIterationRollover` returns an error or nil, or the process exits
within it. -/
inductive Outcome where
  | returned (err : Option String)
  | exited (code : Int)
deriving DecidableEq, Repr

/-- A finished run. -/
structure Run where
  outcome : Outcome
  state : RunState
deriving DecidableEq, Repr

/-- Go `Manager.UpdateItemIteration` (manager.go lines 312-325) of the manager for
`projectID`. -/
def UpdateItemIteration (w : World) (projectID itemID fieldID iterationID : String)
    (st : RunState) : Option String × RunState :=
  let request : UpdateCall :=
    { projectId := projectID, itemId := itemID, fieldId := fieldID,
      iterationId := iterationID }
  let err := w.graphQLUpdate st.updates.length request
  let st1 := { st with updates := st.updates ++ [(request, err)] }
  match err with
  | some e => (some ("failed to update item iteration: " ++ e), st1)
  | none => (none, st1)

/-- Go `strings.Repeat(s, n)`. -/
def Repeat (s : String) (n : Nat) : String := String.join (List.replicate n s)

/-- Go `ui.PrintIterationInfo` (prompt.go lines 83-89). -/
def PrintIterationInfo (info : IterationInfo) (st : RunState) : RunState :=
  let st := st.print "\n🔄 Iteration Information\n"
  let st := st.print (Repeat "=" 50 ++ "\n")
  let st := st.print ("Previous iteration: " ++ info.Previous.Title ++ "\n")
  let st := st.print ("Current iteration: " ++ info.Current.Title ++ "\n")
  st.print ("Iteration field: " ++ info.Current.Field.Name ++ "\n")

/-- The loop of `ui.PrintIssueList` (prompt.go lines 77-80). -/
def printIssues : List Issue → RunState → RunState
  | [], st => st
  | issue :: rest, st =>
    let status := GetIssueStatus issue
    printIssues rest
      (st.print ("• #" ++ toString issue.Number ++ ": " ++ issue.Title ++ " [" ++ status
        ++ "]\n"))

/-- Go `ui.PrintIssueList` (prompt.go lines 73-81). -/
def PrintIssueList (issues : List Issue) (title : String) (st : RunState) : RunState :=
  let st := st.print ("\n" ++ title ++ " (" ++ toString issues.length ++ " issues):\n")
  let st := st.print (Repeat "-" 50 ++ "\n")
  printIssues issues st

/-- Go `Prompter.ConfirmIssue` (prompt.go lines 37-56): the answer, or `none` when the
process exits with status 0 at line 52. -/
def ConfirmIssue (w : World) (issue : Issue) (st : RunState) : Option Bool × RunState :=
  let status := GetIssueStatus issue
  let st := st.print ("\n📋 Issue #" ++ toString issue.Number ++ ": " ++ issue.Title ++ "\n")
  let st := st.print ("   Status: " ++ status ++ "\n")
  let st := st.print ("   State: " ++ issue.State ++ "\n")
  let st := st.print "   Move to current iteration? (y/n/q): "
  let response := w.response st.prompts
  let st := { st with prompts := st.prompts + 1 }
  if response = "y" ∨ response = "yes" then
    (some true, st)
  else if response = "q" ∨ response = "quit" then
    (none, st.print "\n❌ Operation cancelled by user\n")
  else
    (some false, st)

/-- Go `Prompter.ShowSummary` (prompt.go lines 58-71). -/
def ShowSummary (totalIssues movedIssues : Int) (dryRun : Bool) (st : RunState) :
    RunState :=
  let st := st.print ("\n" ++ Repeat "=" 50 ++ "\n")
  let st := st.print "📊 Summary\n"
  let st := st.print (Repeat "=" 50 ++ "\n")
  let st := st.print ("Total incomplete issues found: " ++ toString totalIssues ++ "\n")
  if dryRun = true then
    let st := st.print ("Issues that would be moved: " ++ toString movedIssues ++ "\n")
    st.print "\n🔍 This was a dry run. No changes were made.\n"
  else
    let st := st.print ("Issues moved to current iteration: " ++ toString movedIssues ++ "\n")
    st.print ("Issues skipped: " ++ toString (totalIssues - movedIssues) ++ "\n")

/-- The review loop of iteration.go lines 104-108 with `issuesToMove` so far: the issues
to move, or `none` when a prompt ends the process. -/
def reviewIssues (w : World) : List Issue → List Issue → RunState →
    Option (List Issue) × RunState
  | [], issuesToMove, st => (some issuesToMove, st)
  | issue :: rest, issuesToMove, st =>
    match ConfirmIssue w issue st with
    | (none, st1) => (none, st1)
    | (some true, st1) => reviewIssues w rest (issuesToMove ++ [issue]) st1
    | (some false, st1) => reviewIssues w rest issuesToMove st1

/-- The selection of iteration.go lines 96-109. -/
def selectIssues (base : BaseCommand) (w : World) (incompleteIssues : List Issue)
    (st : RunState) : Option (List Issue) × RunState :=
  if base.Silent = true then
    (some incompleteIssues,
      st.print ("\n🤖 Silent mode: All " ++ toString incompleteIssues.length
        ++ " incomplete issues will be moved\n"))
  else
    reviewIssues w incompleteIssues [] (st.print "\n🤔 Please review each issue:\n")

/-- The inner loop of iteration.go lines 114-121 for the issue at index `i`. -/
def moveItems (w : World) (projectID : String) (iterationInfo : IterationInfo)
    (issue : Issue) (i total : Nat) : List ProjectItem → RunState → RunState
  | [], st => st
  | item :: rest, st =>
    match UpdateItemIteration w projectID item.ID iterationInfo.FieldID
        iterationInfo.Current.ID st with
    | (some err, st1) =>
      moveItems w projectID iterationInfo issue i total rest
        (st1.print ("❌ Failed to move issue #" ++ toString issue.Number ++ ": " ++ err
          ++ "\n"))
    | (none, st1) =>
      moveItems w projectID iterationInfo issue i total rest
        (st1.print ("✅ Moved issue #" ++ toString issue.Number ++ " ("
          ++ toString (i + 1) ++ "/" ++ toString total ++ ")\n"))

/-- The outer loop of iteration.go lines 113-122 from index `i` on; `total` is
`len(issuesToMove)`. -/
def moveIssues (w : World) (projectID : String) (iterationInfo : IterationInfo)
    (total : Nat) : List Issue → Nat → RunState → RunState
  | [], _, st => st
  | issue :: rest, i, st =>
    moveIssues w projectID iterationInfo total rest (i + 1)
      (moveItems w projectID iterationInfo issue i total issue.ProjectItems.Nodes st)

/-- The end of `runIterationRollover` (iteration.go lines 111-127), once `issuesToMove`
is chosen. -/
def applyRollover (base : BaseCommand) (w : World) (projectID : String)
    (iterationInfo : IterationInfo) (incompleteIssues issuesToMove : List Issue)
    (st : RunState) : Run :=
  let st :=
    if base.DryRun = false ∧ 0 < issuesToMove.length then
      moveIssues w projectID iterationInfo issuesToMove.length issuesToMove 0
        (st.print "\n🔄 Moving issues to current iteration...\n")
    else st
  { outcome := .returned none
    state := ShowSummary incompleteIssues.length issuesToMove.length base.DryRun st }

/-- Go `runIterationRollover` from line 79 on: the client, the project id, the iteration
info and the items of the previous iteration were obtained without error, and `issues`
is what `GetIterationItems` returned. -/
def runIterationRollover (base : BaseCommand) (w : World) (projectID : String)
    (iterationInfo : IterationInfo) (issues : List Issue) (st : RunState) : Run :=
  let st := PrintIterationInfo iterationInfo st
  let st := st.print "\n🔍 Fetching issues from previous iteration...\n"
  let incompleteIssues := FilterIncompleteIssues issues projectID
  if incompleteIssues.length = 0 then
    { outcome := .returned none
      state := st.print "\n✅ No incomplete issues found in the previous iteration!\n" }
  else
    let st := PrintIssueList incompleteIssues "📋 Incomplete issues found" st
    match selectIssues base w incompleteIssues st with
    | (none, st1) => { outcome := .exited 0, state := st1 }
    | (some issuesToMove, st1) =>
      applyRollover base w projectID iterationInfo incompleteIssues issuesToMove st1

/-! ## Specification vocabulary for the rollover -/

/-- The update requests a move of `issuesToMove` is to make: one for every project item
of every issue, in list order. -/
def expectedUpdates (projectID : String) (iterationInfo : IterationInfo)
    (issuesToMove : List Issue) : List UpdateCall :=
  issuesToMove.flatMap (fun issue =>
    issue.ProjectItems.Nodes.map (fun item =>
      { projectId := projectID, itemId := item.ID, fieldId := iterationInfo.FieldID,
        iterationId := iterationInfo.Current.ID }))

/-- The record a run is to keep of the update requests `calls` when `n` requests were
made before: each request once, in order, with the error the world holds for it. -/
def expectedLog (w : World) : Nat → List UpdateCall → List (UpdateCall × Option String)
  | _, [] => []
  | n, call :: rest => (call, w.graphQLUpdate n call) :: expectedLog w (n + 1) rest

/-- The number of update requests of a run that succeeded. -/
def succeededUpdates (st : RunState) : Nat :=
  st.updates.countP (fun u => u.2.isNone)

/-- A world in which every update request fails and every prompt is answered `y`. -/
def worldAllFail : World :=
  { graphQLUpdate := fun _ _ => some "GraphQL request failed with status 502"
    response := fun _ => "y" }

/-- A world in which the second update request fails, the others succeed, and every
prompt is answered `y`. -/
def worldSecondFails : World :=
  { graphQLUpdate := fun n _ =>
      if n = 1 then some "GraphQL request failed with status 502" else none
    response := fun _ => "y" }

/-- The flags of a silent run that is not a dry run. -/
def baseSilent : BaseCommand :=
  { ProjectURL := "https://github.com/octo/projects/1", DryRun := false, Silent := true,
    Token := "" }

/-- The resolution of the worked example: current B, previous A. -/
def infoAB : IterationInfo := { Current := iterationB, Previous := iterationA, FieldID := "F" }

/-- The state at the start of a run. -/
def RunState.initial : RunState := { out := [], updates := [], prompts := 0 }

/-! ## The resolver without its second pass -/

/-- The resolver proper with the second pass (manager.go lines 168-177) removed: the scan
of lines 138-166 followed at once by the two failure checks of lines 179-186. -/
def resolveWithoutSecondPass (sorted : List Iteration) (fieldID : String) (now : Time) :
    Except ResolveError IterationInfo :=
  let sel := scanFrom sorted now sorted 0 { current := none, previous := none }
  match sel.current with
  | none => .error .NoCurrentIteration
  | some cur =>
    match sel.previous with
    | none => .error .NoPreviousIteration
    | some prev => .ok { Current := cur, Previous := prev, FieldID := fieldID }

/-- The resolver of `GetIterations` with the second pass removed. -/
def GetIterationsWithoutSecondPass (sortSlice : List Iteration → List Iteration)
    (parsedIterations : List Iteration) (fieldID : String) (now : Time) :
    Except ResolveError IterationInfo :=
  resolveWithoutSecondPass (sortSlice parsedIterations) fieldID now

/-- A third iteration C for the examples: starts 2024-01-29 and lasts 14 days. -/
def iterationC : Iteration :=
  ⟨"C", "Sprint C", timeOn 2024 1 29 0 (by decide), 14, ⟨"F", "Iteration"⟩⟩

/-- The flags of a dry run with prompts. -/
def baseDryRun : BaseCommand :=
  { ProjectURL := "https://github.com/octo/projects/1", DryRun := true, Silent := false,
    Token := "" }

/-! ## Project URL (`Client.ParseProjectURL`, client.go lines 156-180) -/

/-- Go `strings.TrimPrefix(s, p)`. -/
def TrimPrefix (s p : String) : String :=
  if p.data.isPrefixOf s.data = true then ⟨s.data.drop p.data.length⟩ else s

/-- Go `strings.TrimSuffix(s, p)`. -/
def TrimSuffix (s p : String) : String :=
  if p.data.isSuffixOf s.data = true then ⟨s.data.take (s.data.length - p.data.length)⟩
  else s

/-- The characters `sub` occur in `s` as a contiguous block. -/
def containsChars (sub : List Char) : List Char → Bool
  | [] => sub.isPrefixOf []
  | c :: rest => sub.isPrefixOf (c :: rest) || containsChars sub rest

/-- Go `strings.Contains(s, substr)`. -/
def Contains (s substr : String) : Bool := containsChars substr.data s.data

/-- The pieces of `s` between the occurrences of the character `sep`, with `cur` the
piece being read. -/
def splitChars (sep : Char) : List Char → List Char → List (List Char)
  | [], cur => [cur]
  | c :: rest, cur =>
    if c = sep then cur :: splitChars sep rest [] else splitChars sep rest (cur ++ [c])

/-- Go `strings.Split(s, sep)` for a separator of one character, as in the one call of
this program, `strings.Split(url, "/")`. -/
def Split (s : String) (sep : Char) : List String :=
  (splitChars sep s.data []).map String.mk

/-- The two failures of `ParseProjectURL` (client.go lines 165 and 180). -/
inductive ParseError where
  | InvalidFormat
  | CouldNotParse
deriving DecidableEq, Repr

/-- The message of each failure, as passed to `fmt.Errorf`. -/
def ParseError.message : ParseError → String
  | .InvalidFormat =>
      "invalid GitHub project URL format: must be github.com URL with /projects/"
  | .CouldNotParse =>
      "could not parse project URL: expected format https://github.com/\x7bowner\x7d/projects/\x7bnumber\x7d"

/-- The loop of client.go lines 168-178 from index `i` on: `rest` is `parts[i:]`, and the
result is the pair returned from within the loop, if any. -/
def scanParts (parts : List String) : List String → Nat → Option (String × String)
  | [], _ => none
  | part :: rest, i =>
    if part = "github.com" ∧ i + 2 < parts.length ∧ parts[i + 2]? = some "projects"
        ∧ i + 3 < parts.length then
      some (parts.getD (i + 1) "", parts.getD (i + 3) "")
    else if part = "users" ∧ i + 1 < parts.length ∧ i + 2 < parts.length
        ∧ parts[i + 2]? = some "projects" ∧ i + 3 < parts.length then
      some (parts.getD (i + 1) "", parts.getD (i + 3) "")
    else if part = "orgs" ∧ i + 1 < parts.length ∧ i + 2 < parts.length
        ∧ parts[i + 2]? = some "projects" ∧ i + 3 < parts.length then
      some (parts.getD (i + 1) "", parts.getD (i + 3) "")
    else
      scanParts parts rest (i + 1)

/-- Go `Client.ParseProjectURL` (client.go lines 156-180): the owner and the number, or
the error. -/
def ParseProjectURL (url : String) : Except ParseError (String × String) :=
  let url := TrimPrefix url "https://"
  let url := TrimPrefix url "http://"
  let url := TrimSuffix url "/"
  let parts := Split url '/'
  if (!Contains url "github.com" || !Contains url "/projects/") = true then
    .error .InvalidFormat
  else
    match scanParts parts parts 0 with
    | some (owner, number) => .ok (owner, number)
    | none => .error .CouldNotParse

/-! ## Project data fetcher (`Manager.GetIterationItems`, manager.go lines 198-310) -/

/-- A decoded JSON value, as `encoding/json` stores it in an `interface{}`: nil, a
`bool`, a `float64`, a `string`, a `[]interface{}` or a `map[string]interface{}`, the
latter as the list of its entries, read at the first entry of a key. A `float64` that
the decoder yields is finite, and is given as the rational number it is. -/
inductive Json where
  | null : Json
  | bool (b : Bool) : Json
  | num (x : ℚ) : Json
  | str (s : String) : Json
  | arr (elems : List Json) : Json
  | obj (entries : List (String × Json)) : Json

/-- Go `m[key]` on a decoded object: the value, nil when the key is absent. -/
def lookup : List (String × Json) → String → Json
  | [], _ => .null
  | (k, v) :: rest, key => if k = key then v else lookup rest key

/-- Go `v.(map[string]interface{})`: `none` when the assertion fails. -/
def Json.asObject : Json → Option (List (String × Json))
  | .obj entries => some entries
  | _ => none

/-- Go `v.([]interface{})`: `none` when the assertion fails. -/
def Json.asArray : Json → Option (List Json)
  | .arr elems => some elems
  | _ => none

/-- Go `v.(string)`: `none` when the assertion fails. -/
def Json.asString : Json → Option String
  | .str s => some s
  | _ => none

/-- Go `v.(float64)`: `none` when the assertion fails. -/
def Json.asNumber : Json → Option ℚ
  | .num x => some x
  | _ => none

/-- Go `int(x)` for a `float64` `x`, where `int` has 64 bits: the fraction is dropped, and
a result that does not fit in an `int` is replaced by -9223372036854775808, which is what
the conversion yields on amd64 (Go leaves the value to the implementation). -/
def intOfFloat64 (x : ℚ) : Int :=
  let truncated := Int.tdiv x.num x.den
  if -9223372036854775808 ≤ truncated ∧ truncated < 9223372036854775808 then truncated
  else -9223372036854775808

/-- Go `v.(bool)`: `none` when the assertion fails. -/
def Json.asBool : Json → Option Bool
  | .bool b => some b
  | _ => none

/-- The loop of lines 260-287 over the field values of one item, with the values of
`hasIterationMatch` and `fieldValueNodes` so far; `none` is the panic of an assertion
without `ok`. -/
def scanFieldValueNodes (iterationID : String) :
    List Json → Bool → List FieldValue → Option (Bool × List FieldValue)
  | [], hasIterationMatch, fieldValueNodes => some (hasIterationMatch, fieldValueNodes)
  | fv :: rest, hasIterationMatch, fieldValueNodes =>
    match fv.asObject with
    | none => none
    | some fieldValue =>
      let hasIterationMatch :=
        if (lookup fieldValue "__typename").asString
            = some "ProjectV2ItemFieldIterationValue" then
          match (lookup fieldValue "iterationId").asString with
          | some iterationId =>
            if iterationId = iterationID then true else hasIterationMatch
          | none => hasIterationMatch
        else hasIterationMatch
      if (lookup fieldValue "__typename").asString
          = some "ProjectV2ItemFieldSingleSelectValue" then
        match (lookup fieldValue "field").asObject with
        | none => none
        | some field =>
          match (lookup field "id").asString, (lookup field "name").asString,
              (lookup fieldValue "name").asString with
          | some id, some name, some title =>
            scanFieldValueNodes iterationID rest hasIterationMatch
              (fieldValueNodes ++
                [{ TypeName := "ProjectV2ItemFieldSingleSelectValue"
                   Field := { ID := id, Name := name }
                   Title := title, Duration := 0, ID := "" }])
          | _, _, _ => none
      else
        scanFieldValueNodes iterationID rest hasIterationMatch fieldValueNodes

/-- The body of the loop of lines 228-306 for one item: `some (some issue)` when the
issue is appended to `allItems`, `some none` when the item is passed over, `none` for the
panic of an assertion without `ok`. -/
def itemIssue (iterationID : String) (item : Json) : Option (Option Issue) :=
  match item.asObject with
  | none => none
  | some itemData =>
    match (lookup itemData "content").asObject with
    | none => some none
    | some content =>
      match (lookup content "id").asString with
      | none => some none
      | some id =>
        match (lookup content "number").asNumber with
        | none => some none
        | some number =>
          match (lookup content "title").asString, (lookup content "state").asString with
          | some title, some state =>
            match (lookup itemData "fieldValues").asObject with
            | none => none
            | some fieldValuesObject =>
              match (lookup fieldValuesObject "nodes").asArray,
                  (lookup itemData "id").asString with
              | some fieldValues, some itemID =>
                match scanFieldValueNodes iterationID fieldValues false [] with
                | none => none
                | some (hasIterationMatch, fieldValueNodes) =>
                  if hasIterationMatch = true then
                    some (some
                      { ID := id, Number := intOfFloat64 number, Title := title
                        State := state
                        Repository := { Name := "", Owner := { Login := "" } }
                        ProjectItems :=
                          { Nodes := [{ ID := itemID
                                        FieldValues := { Nodes := fieldValueNodes } }] } })
                  else some none
              | _, _ => none
          | _, _ => none

/-- The loop of lines 228-306 over the items of one page, with `allItems` so far. -/
def pageItems (iterationID : String) : List Json → List Issue → Option (List Issue)
  | [], allItems => some allItems
  | item :: rest, allItems =>
    match itemIssue iterationID item with
    | none => none
    | some (some issue) => pageItems iterationID rest (allItems ++ [issue])
    | some none => pageItems iterationID rest allItems

/-- Lines 216-226: the flag, the cursor and the items read from one response, with the
cursor so far; `none` for the panic of an assertion without `ok`. -/
def readPage (result : List (String × Json)) (cursor : String) :
    Option (Bool × String × List Json) :=
  match (lookup result "data").asObject with
  | none => none
  | some data =>
    match (lookup data "node").asObject with
    | none => none
    | some node =>
      match (lookup node "items").asObject with
      | none => none
      | some items =>
        match (lookup items "pageInfo").asObject with
        | none => none
        | some pageInfo =>
          match (lookup pageInfo "hasNextPage").asBool with
          | none => none
          | some hasNextPage =>
            let cursor :=
              match (lookup pageInfo "endCursor").asString with
              | some endCursor => endCursor
              | none => cursor
            match (lookup items "nodes").asArray with
            | none => none
            | some nodes => some (hasNextPage, cursor, nodes)

/-- The variables of one `GetIterationItemsQuery` request (lines 204-209): `after` is
absent when `none`. -/
structure ItemsRequest where
  projectId : String
  after : Option String
deriving DecidableEq, Repr

/-- How `GetIterationItems` ends: it returns the issues, it returns an error, it panics
at an assertion without `ok`, or its loop has not ended when the fuel of the model runs
out. -/
inductive FetchOutcome where
  | returned (issues : List Issue)
  | failed (err : String)
  | panicked
  | unfinished
deriving DecidableEq, Repr

/-- The loop of lines 203-307 when `hasNextPage` is true, for at most `fuel` rounds, with
the requests made so far; `fetch n request` is what `m.client.GraphQL` returns for the
request made after `n` earlier ones. -/
def fetchPages (fetch : Nat → ItemsRequest → Except String (List (String × Json)))
    (projectID iterationID : String) :
    Nat → List Issue → String → List ItemsRequest → FetchOutcome × List ItemsRequest
  | 0, _, _, requests => (.unfinished, requests)
  | fuel + 1, allItems, cursor, requests =>
    let request : ItemsRequest :=
      { projectId := projectID, after := if cursor ≠ "" then some cursor else none }
    match fetch requests.length request with
    | .error err => (.failed ("failed to fetch iteration items: " ++ err), requests ++ [request])
    | .ok result =>
      match readPage result cursor with
      | none => (.panicked, requests ++ [request])
      | some (hasNextPage, cursor1, nodes) =>
        match pageItems iterationID nodes allItems with
        | none => (.panicked, requests ++ [request])
        | some allItems1 =>
          if hasNextPage = true then
            fetchPages fetch projectID iterationID fuel allItems1 cursor1
              (requests ++ [request])
          else (.returned allItems1, requests ++ [request])

/-- Go `Manager.GetIterationItems` (manager.go lines 198-310) of the manager for
`projectID`: how the call ends within `fuel` rounds of the loop, and the requests it
made. -/
def GetIterationItems (fetch : Nat → ItemsRequest → Except String (List (String × Json)))
    (projectID iterationID : String) (fuel : Nat) : FetchOutcome × List ItemsRequest :=
  fetchPages fetch projectID iterationID fuel [] "" []

/-! ## Specification vocabulary for the fetcher -/

/-- One page of the item listing: the two fields of `pageInfo` and the items. -/
structure Page where
  hasNextPage : Bool
  endCursor : Option String
  nodes : List Json

/-- The response that carries the page `p`. -/
def pageResponse (p : Page) : List (String × Json) :=
  [("data", .obj [("node", .obj [("items", .obj
    [("pageInfo", .obj
        [("hasNextPage", .bool p.hasNextPage),
         ("endCursor", match p.endCursor with
            | some c => .str c
            | none => .null)]),
     ("nodes", .arr p.nodes)])])])]

/-- The `after` variable of request `k` when the requests walk through `pages`: absent in
the first request, then the `endCursor` of the page before. -/
def expectedAfter (pages : List Page) (k : Nat) : Option String :=
  if k = 0 then none else (pages[k - 1]?).bind (fun p => p.endCursor)

/-- The requests that walk through `pages`, in order. -/
def expectedRequests (projectID : String) (pages : List Page) : List ItemsRequest :=
  (List.range pages.length).map
    (fun k => { projectId := projectID, after := expectedAfter pages k })

/-- The content of the item, when it has one. -/
def itemContent (item : Json) : Option (List (String × Json)) :=
  item.asObject.bind (fun itemData => (lookup itemData "content").asObject)

/-- The content of the item has a string `id`. -/
def hasStringId (item : Json) : Bool :=
  match itemContent item with
  | some content => (lookup content "id").asString.isSome
  | none => false

/-- The content of the item has a numeric `number`. -/
def hasNumericNumber (item : Json) : Bool :=
  match itemContent item with
  | some content => (lookup content "number").asNumber.isSome
  | none => false

/-- The field value is of the iteration type and its `iterationId` is `iterationID`. -/
def isIterationValueOf (iterationID : String) (fv : Json) : Bool :=
  match fv.asObject with
  | some fieldValue =>
    decide ((lookup fieldValue "__typename").asString
        = some "ProjectV2ItemFieldIterationValue") &&
      decide ((lookup fieldValue "iterationId").asString = some iterationID)
  | none => false

/-- The field values of the item, when it has the list. -/
def itemFieldValues (item : Json) : Option (List Json) :=
  item.asObject.bind (fun itemData =>
    (lookup itemData "fieldValues").asObject.bind (fun o => (lookup o "nodes").asArray))

/-- The item has an iteration-type field value whose `iterationId` is `iterationID`. -/
def hasIterationValue (iterationID : String) (item : Json) : Bool :=
  match itemFieldValues item with
  | some fieldValues => fieldValues.any (isIterationValueOf iterationID)
  | none => false

/-- The field value node has the shape the query gives it: an object, which for a
single-select value carries its field, with `id` and `name`, and its `name`. -/
def wellFormedFieldValue (fv : Json) : Bool :=
  match fv.asObject with
  | none => false
  | some fieldValue =>
    if (lookup fieldValue "__typename").asString
        = some "ProjectV2ItemFieldSingleSelectValue" then
      match (lookup fieldValue "field").asObject with
      | none => false
      | some field =>
        (lookup field "id").asString.isSome && (lookup field "name").asString.isSome
          && (lookup fieldValue "name").asString.isSome
    else true

/-- The item has the shape the query gives it: an object which, when its content is an
issue (a string `id` and a numeric `number`), carries the `title` and `state` of the
issue, its own `id`, and a list of well-formed field values. -/
def wellFormedItem (item : Json) : Bool :=
  match item.asObject with
  | none => false
  | some itemData =>
    if (hasStringId item && hasNumericNumber item) = true then
      (match (lookup itemData "content").asObject with
        | some content =>
          (lookup content "title").asString.isSome && (lookup content "state").asString.isSome
        | none => false)
      && (lookup itemData "id").asString.isSome
      && (match itemFieldValues item with
        | some fieldValues => fieldValues.all wellFormedFieldValue
        | none => false)
    else true

/-- The field value an issue carries for the field value node `fv` of its item: one for
each single-select value, with the id and the name of its field and the name of the
option chosen. -/
def selectValueOf (fv : Json) : Option FieldValue :=
  fv.asObject.bind (fun fieldValue =>
    if (lookup fieldValue "__typename").asString
        = some "ProjectV2ItemFieldSingleSelectValue" then
      (lookup fieldValue "field").asObject.bind (fun field =>
        (lookup field "id").asString.bind (fun id =>
          (lookup field "name").asString.bind (fun name =>
            (lookup fieldValue "name").asString.bind (fun title =>
              some { TypeName := "ProjectV2ItemFieldSingleSelectValue"
                     Field := { ID := id, Name := name }
                     Title := title, Duration := 0, ID := "" }))))
    else none)

/-- The issue of the item: the id, number, title and state of its content, no repository,
and one project item, the item itself with its single-select field values in order. -/
def issueOf (item : Json) : Option Issue :=
  item.asObject.bind (fun itemData =>
    (itemContent item).bind (fun content =>
      (lookup content "id").asString.bind (fun id =>
        (lookup content "number").asNumber.bind (fun number =>
          (lookup content "title").asString.bind (fun title =>
            (lookup content "state").asString.bind (fun state =>
              (lookup itemData "id").asString.bind (fun itemID =>
                (itemFieldValues item).bind (fun fieldValues =>
                  some { ID := id, Number := intOfFloat64 number, Title := title
                         State := state
                         Repository := { Name := "", Owner := { Login := "" } }
                         ProjectItems :=
                           { Nodes := [{ ID := itemID
                                         FieldValues :=
                                           { Nodes := fieldValues.filterMap
                                               selectValueOf } }] } }))))))))

/-- The item is an issue of the iteration `iterationID`: its content has a string id and a
numeric number, and one of its field values is of the iteration type with this
`iterationId`. -/
def isIssueOfIteration (iterationID : String) (item : Json) : Bool :=
  hasStringId item && hasNumericNumber item && hasIterationValue iterationID item

/-- The issues `GetIterationItems` is to return for the items `nodes` of one page: the
issue of every item that is an issue of the iteration, in order. -/
def matchingIssues (iterationID : String) (nodes : List Json) : List Issue :=
  nodes.filterMap (fun item => if isIssueOfIteration iterationID item = true then issueOf item
    else none)

/-- An item of the project: issue `number`, assigned to the iteration `iterationId`. -/
def issueItem (number : Int) (iterationId : String) : Json :=
  .obj [("id", .str ("PVTI_" ++ toString number)),
    ("content", .obj [("id", .str ("I_" ++ toString number)), ("number", .num (number : ℚ)),
      ("title", .str "Write the parser"), ("state", .str "OPEN")]),
    ("fieldValues", .obj [("nodes", .arr
      [.obj [("__typename", .str "ProjectV2ItemFieldIterationValue"),
             ("field", .obj [("id", .str "F"), ("name", .str "Iteration")]),
             ("iterationId", .str iterationId), ("title", .str "Sprint")],
       .obj [("__typename", .str "ProjectV2ItemFieldSingleSelectValue"),
             ("field", .obj [("id", .str "FS"), ("name", .str "Status")]),
             ("name", .str "In Progress")],
       .obj []])])]

/-- An item whose content is not an issue: the query returns an empty object for it. -/
def pullRequestItem : Json :=
  .obj [("id", .str "PVTI_9"), ("content", .obj []),
    ("fieldValues", .obj [("nodes", .arr
      [.obj [("__typename", .str "ProjectV2ItemFieldIterationValue"),
             ("field", .obj [("id", .str "F"), ("name", .str "Iteration")]),
             ("iterationId", .str "A"), ("title", .str "Sprint A")]])])]

/-- An item without content. -/
def redactedItem : Json :=
  .obj [("id", .str "PVTI_8"), ("content", .null),
    ("fieldValues", .obj [("nodes", .arr [])])]

/-- An item of the iteration A whose content has an id and a number, but no title. -/
def untitledItem : Json :=
  .obj [("id", .str "PVTI_7"),
    ("content", .obj [("id", .str "I_7"), ("number", .num 7), ("state", .str "OPEN")]),
    ("fieldValues", .obj [("nodes", .arr
      [.obj [("__typename", .str "ProjectV2ItemFieldIterationValue"),
             ("field", .obj [("id", .str "F"), ("name", .str "Iteration")]),
             ("iterationId", .str "A"), ("title", .str "Sprint A")]])])]

/-- Three pages with the flags true, true, false. -/
def threePages : List Page :=
  [{ hasNextPage := true, endCursor := some "c1",
     nodes := [issueItem 1 "A", pullRequestItem, issueItem 2 "B"] },
   { hasNextPage := true, endCursor := some "c2", nodes := [redactedItem, issueItem 3 "A"] },
   { hasNextPage := false, endCursor := some "c3", nodes := [issueItem 4 "A"] }]

/-- A server that answers the request with the cursor of page `k - 1` with page `k` of
`threePages`, and refuses any other request. -/
def threePageServer : Nat → ItemsRequest → Except String (List (String × Json)) :=
  fun _ request =>
    if request.after = none then .ok (pageResponse (threePages.getD 0 ⟨false, none, []⟩))
    else if request.after = some "c1" then
      .ok (pageResponse (threePages.getD 1 ⟨false, none, []⟩))
    else if request.after = some "c2" then
      .ok (pageResponse (threePages.getD 2 ⟨false, none, []⟩))
    else .error "unknown cursor"

/-- Three pages with the flags true, true, false, the second without `endCursor`. -/
def pagesWithoutCursor : List Page :=
  [{ hasNextPage := true, endCursor := some "c1", nodes := [issueItem 1 "A"] },
   { hasNextPage := true, endCursor := none, nodes := [issueItem 3 "A"] },
   { hasNextPage := false, endCursor := none, nodes := [issueItem 4 "A"] }]

/-- Three pages with the flags true, true, false, the second with an item that has no
title. -/
def pagesWithUntitled : List Page :=
  [{ hasNextPage := true, endCursor := some "c1", nodes := [issueItem 1 "A"] },
   { hasNextPage := true, endCursor := some "c2", nodes := [untitledItem] },
   { hasNextPage := false, endCursor := some "c3", nodes := [issueItem 4 "A"] }]

/-- A server that answers the request made after `k` earlier ones with page `k` of
`pages`. -/
def pagesInOrder (pages : List Page) :
    Nat → ItemsRequest → Except String (List (String × Json)) :=
  fun k _ =>
    match pages[k]? with
    | some p => .ok (pageResponse p)
    | none => .error "no such page"

/-! ## Lemmas on the resolver -/

theorem startLE_iff (a b : Iteration) :
    startLE a b ↔ a.StartDate.unixNano ≤ b.StartDate.unixNano := by
  simp [startLE, Before]

theorem sortByStartDate_perm (l : List Iteration) : (sortByStartDate l).Perm l :=
  List.perm_insertionSort _ l

theorem sortByStartDate_sorted (l : List Iteration) : StartSorted (sortByStartDate l) := by
  have h := List.sorted_insertionSort startLE l
  unfold StartSorted sortByStartDate
  exact List.Pairwise.imp (fun {a b} hab => (startLE_iff a b).1 hab) h

/-- Sorting by insertion meets what is asked of `sort.Slice`. -/
theorem sortByStartDate_sorts : SortsByStartDate sortByStartDate :=
  ⟨sortByStartDate_perm, sortByStartDate_sorted⟩

/-- When the end start + duration days is a time Go can hold, it is the end the code
computes. -/
theorem endDate_of_representable (x : Iteration) (h : endRepresentable x) :
    (endDate x).unixNano = endInstant x := by
  unfold endRepresentable Representable endInstant nsPerDay unixToInternal at h
  unfold endDate AddDays wrapInt64 unixToInternal endInstant nsPerDay
  simp only
  omega

theorem nsPerDay_pos : 0 < nsPerDay := by decide

theorem start_le_end_of_nonneg (x : Iteration) (h : 0 ≤ x.Duration) :
    x.StartDate.unixNano ≤ endInstant x := by
  have := mul_nonneg h (le_of_lt nsPerDay_pos)
  unfold endInstant
  omega

/-- With a non-negative duration, an end that is not a time of Go lies after every time of
Go. -/
theorem endInstant_gt_of_not_representable (x : Iteration) (now : Time)
    (hd : 0 ≤ x.Duration) (h : ¬ endRepresentable x) : now.unixNano < endInstant x := by
  have hs := start_le_end_of_nonneg x hd
  have hl := x.StartDate.inRange
  have hh := now.inRange
  unfold endRepresentable Representable unixToInternal at h
  unfold Representable unixToInternal at hl hh
  omega

theorem countsAsEnded_iff (x : Iteration) (now : Time) (hr : endRepresentable x) :
    countsAsEnded now x ↔ hasEnded now x := by
  unfold countsAsEnded hasEnded
  rw [endDate_of_representable x hr]

theorem getElem?_pred_length_append (pre rem : List Iteration) (h : 0 < pre.length) :
    (pre ++ rem)[pre.length - 1]? = pre.getLast? := by
  rw [List.getLast?_eq_getElem?, List.getElem?_append_left (by omega)]

/-- The scan, from any index on: it walks over the iterations that count as ended and
stops at the first iteration that does not, with the iteration just before as previous. -/
theorem scanFrom_eq (now : Time) (rem pre : List Iteration) :
    scanFrom (pre ++ rem) now rem pre.length ⟨none, pre.getLast?⟩ =
      ⟨(rem.dropWhile (fun x => decide (countsAsEnded now x))).head?,
       (pre ++ rem.takeWhile (fun x => decide (countsAsEnded now x))).getLast?⟩ := by
  induction rem generalizing pre with
  | nil => simp [scanFrom]
  | cons x rest ih =>
    by_cases hE : countsAsEnded now x
    · have hE2 := hE
      unfold countsAsEnded at hE2
      have h1 : ¬ ((!After x.StartDate now && After (endDate x) now) = true) := by
        simp [After]; intro _; exact hE2
      have h2 : (Before (endDate x) now || Equal (endDate x) now) = true := by
        simp [Before, Equal]; exact lt_or_eq_of_le hE2
      have := ih (pre ++ [x])
      simp only [List.append_assoc, List.singleton_append, List.length_append,
        List.length_singleton, List.getLast?_append, List.getLast?_singleton] at this
      rw [scanFrom, if_neg h1, if_pos h2]
      simp [hE]
      simpa using this
    · have hE2 := hE
      unfold countsAsEnded at hE2
      have h2 : ¬ ((Before (endDate x) now || Equal (endDate x) now) = true) := by
        simp [Before, Equal]; constructor <;> omega
      by_cases h1 : (!After x.StartDate now && After (endDate x) now) = true
      · rw [scanFrom, if_pos h1]
        simp [hE]
        rcases Nat.eq_zero_or_pos pre.length with h0 | h0
        · have : pre = [] := List.length_eq_zero.1 h0
          subst this; simp
        · simp [h0, getElem?_pred_length_append]
      · have h3 : (After x.StartDate now && (none : Option Iteration).isNone) = true := by
          simp [After] at h1 ⊢
          by_contra hc
          have := h1 (not_lt.1 hc)
          omega
        rw [scanFrom, if_neg h1, if_neg h2, if_pos h3]
        simp [hE]

theorem scanFrom_start (now : Time) (s : List Iteration) :
    scanFrom s now s 0 ⟨none, none⟩ =
      ⟨(s.dropWhile (fun x => decide (countsAsEnded now x))).head?,
       (s.takeWhile (fun x => decide (countsAsEnded now x))).getLast?⟩ := by
  have h : scanFrom s now s 0 ⟨none, none⟩ = _ := scanFrom_eq now s []
  simpa using h

theorem firstFuture_eq_none (now : Time) (l : List Iteration)
    (h : ∀ x ∈ l, ¬ startsAfter now x) : firstFuture now l = none := by
  induction l with
  | nil => rfl
  | cons x rest ih =>
    have hx : ¬ (After x.StartDate now = true) := by
      have := h x (List.mem_cons_self _ _)
      simpa [After, startsAfter] using this
    rw [firstFuture, if_neg hx]
    exact ih (fun y hy => h y (List.mem_cons_of_mem _ hy))

theorem firstFuture_some (now : Time) (l : List Iteration) (c : Iteration)
    (h : firstFuture now l = some c) : c ∈ l ∧ startsAfter now c := by
  induction l with
  | nil => simp [firstFuture] at h
  | cons x rest ih =>
    by_cases hx : After x.StartDate now = true
    · rw [firstFuture, if_pos hx] at h
      cases h
      exact ⟨List.mem_cons_self _ _, by simpa [After, startsAfter] using hx⟩
    · rw [firstFuture, if_neg hx] at h
      exact ⟨List.mem_cons_of_mem _ (ih h).1, (ih h).2⟩

theorem head?_dropWhile_not (p : Iteration → Bool) (l : List Iteration) (c : Iteration)
    (h : (l.dropWhile p).head? = some c) : c ∈ l ∧ p c = false := by
  induction l with
  | nil => simp at h
  | cons x rest ih =>
    by_cases hx : p x = true
    · rw [List.dropWhile_cons_of_pos hx] at h
      exact ⟨List.mem_cons_of_mem _ (ih h).1, (ih h).2⟩
    · rw [List.dropWhile_cons_of_neg hx] at h
      simp at h
      subst h
      exact ⟨List.mem_cons_self _ _, by simpa using hx⟩

theorem getLast?_takeWhile (p : Iteration → Bool) (l : List Iteration) (q : Iteration)
    (h : (l.takeWhile p).getLast? = some q) : q ∈ l ∧ p q = true := by
  have hm : q ∈ l.takeWhile p := List.mem_of_getLast?_eq_some h
  exact ⟨(List.takeWhile_sublist p).subset hm, List.mem_takeWhile_imp hm⟩

/-- The resolver proper in closed form, on any list: current is the first iteration that
does not count as ended, else the first one that starts after now; previous is the last
iteration of those counting as ended that the list begins with. -/
theorem resolve_eq (s : List Iteration) (fieldID : String) (now : Time) :
    resolve s fieldID now =
      match (match (s.dropWhile (fun x => decide (countsAsEnded now x))).head? with
              | some c => some c
              | none => firstFuture now s),
            (s.takeWhile (fun x => decide (countsAsEnded now x))).getLast? with
      | none, _ => .error .NoCurrentIteration
      | some _, none => .error .NoPreviousIteration
      | some c, some p => .ok ⟨c, p, fieldID⟩ := by
  have h := scanFrom_start now s
  unfold resolve
  simp only [h]
  cases hd : (s.dropWhile (fun x => decide (countsAsEnded now x))).head? with
  | none =>
    cases s with
    | nil => simp [firstFuture]
    | cons a l =>
      simp
      cases firstFuture now (a :: l) <;> simp
      rename_i c
      cases ((a :: l).takeWhile (fun x => decide (countsAsEnded now x))).getLast? <;> simp
  | some c =>
    simp
    cases (s.takeWhile (fun x => decide (countsAsEnded now x))).getLast? <;> simp

/-- The resolver proper when the sorted list is iterations that count as ended followed by
one that does not. -/
theorem resolve_of_split (s : List Iteration) (fieldID : String) (now : Time)
    (pre post : List Iteration) (c : Iteration)
    (hs : s = pre ++ c :: post)
    (hpre : ∀ x ∈ pre, countsAsEnded now x) (hc : ¬ countsAsEnded now c) :
    resolve s fieldID now =
      match pre.getLast? with
      | none => .error .NoPreviousIteration
      | some p => .ok ⟨c, p, fieldID⟩ := by
  have hp : ∀ a ∈ pre, (fun x => decide (countsAsEnded now x)) a = true := by
    intro a ha; simpa using hpre a ha
  rw [resolve_eq, hs, List.takeWhile_append_of_pos hp, List.dropWhile_append_of_pos hp]
  simp [hc]
  cases pre.getLast? <;> simp

/-- What a successful resolution returns. -/
theorem resolve_ok (s : List Iteration) (fieldID : String) (now : Time)
    (info : IterationInfo) (h : resolve s fieldID now = .ok info) :
    info.Current ∈ s ∧ (¬ countsAsEnded now info.Current ∨ startsAfter now info.Current) ∧
      info.Previous ∈ s ∧ countsAsEnded now info.Previous ∧ info.FieldID = fieldID := by
  rw [resolve_eq] at h
  cases hl : (s.takeWhile (fun x => decide (countsAsEnded now x))).getLast? with
  | none =>
    rw [hl] at h
    split at h
    · simp at h
    · simp at h
    · rename_i heq; simp at heq
  | some p =>
    rw [hl] at h
    have hp := getLast?_takeWhile _ _ _ hl
    cases hd : (s.dropWhile (fun x => decide (countsAsEnded now x))).head? with
    | some c =>
      rw [hd] at h
      simp at h
      subst h
      have hc := head?_dropWhile_not _ _ _ hd
      exact ⟨hc.1, Or.inl (by simpa using hc.2), hp.1, by simpa using hp.2, rfl⟩
    | none =>
      rw [hd] at h
      cases hf : firstFuture now s with
      | none => rw [hf] at h; simp at h
      | some c =>
        rw [hf] at h
        simp at h
        subst h
        have hc := firstFuture_some _ _ _ hf
        exact ⟨hc.1, Or.inr hc.2, hp.1, by simpa using hp.2, rfl⟩

theorem all_ended_of_head?_dropWhile_none (now : Time) (s : List Iteration)
    (h : (s.dropWhile (fun x => decide (countsAsEnded now x))).head? = none) :
    ∀ y ∈ s, countsAsEnded now y := by
  have hnil := List.head?_eq_none_iff.1 h
  intro y hy
  simpa using List.dropWhile_eq_nil_iff.1 hnil y hy

/-- With non-negative durations and ends that are times of Go, an iteration that counts as
ended does not start after now, so a list of such iterations has no future one. -/
theorem firstFuture_none_of_all_ended (now : Time) (s : List Iteration)
    (hdur : ∀ y ∈ s, 0 ≤ y.Duration) (hrep : ∀ y ∈ s, endRepresentable y)
    (hall : ∀ y ∈ s, countsAsEnded now y) :
    firstFuture now s = none := by
  apply firstFuture_eq_none
  intro x hx hs
  have h1 := start_le_end_of_nonneg x (hdur x hx)
  have h2 := (countsAsEnded_iff x now (hrep x hx)).1 (hall x hx)
  unfold hasEnded at h2
  unfold startsAfter at hs
  omega

/-- With non-negative durations and ends that are times of Go, the second pass finds
nothing when the scan found no current iteration. -/
theorem secondPass_finds_nothing (now : Time) (s : List Iteration)
    (hdur : ∀ y ∈ s, 0 ≤ y.Duration) (hrep : ∀ y ∈ s, endRepresentable y)
    (hscan : (scanFrom s now s 0 ⟨none, none⟩).current = none) :
    firstFuture now s = none := by
  rw [scanFrom_start] at hscan
  exact firstFuture_none_of_all_ended now s hdur hrep
    (all_ended_of_head?_dropWhile_none now s hscan)

/-- A list in start-date order with the elements of a list of two iterations of different
start dates, the earlier first, is that list. -/
theorem sorted_perm_unique (s l : List Iteration)
    (hdistinct : l.Pairwise (fun a b => a.StartDate.unixNano ≠ b.StartDate.unixNano))
    (hl : StartSorted l) (hp : s.Perm l) (hs : StartSorted s) : s = l := by
  have hnodup : (l.map (fun a => a.StartDate.unixNano)).Nodup := by
    unfold List.Nodup
    rw [List.pairwise_map]
    exact hdistinct
  have hinj := List.inj_on_of_nodup_map hnodup
  refine List.Perm.eq_of_sorted ?_ hs hl hp
  intro a b ha hb hab hba
  exact hinj (hp.mem_iff.1 ha) hb (le_antisymm hab hba)

/-! ## Properties of the iteration resolver -/

/-- C1, as the claim states it, fails: of A (2024-01-01, 14 days) and H (2024-01-15,
150000000000000 days), H alone has a window that contains 2024-01-20, but `AddDate` wraps
the end of H to a time long past, H counts as ended, and the resolver fails for want of a
current iteration. -/
theorem C1_unique_window_counterexample :
    iterationHugeB ∈ [iterationA, iterationHugeB] ∧
    windowContains jan20 iterationHugeB ∧
    [iterationA, iterationHugeB].countP (fun x => decide (windowContains jan20 x)) = 1 ∧
    GetIterations sortByStartDate [iterationA, iterationHugeB] "F" jan20
      = .error .NoCurrentIteration := by
  refine ⟨by decide, by decide, by decide, by rfl⟩

/-- C1, amended: for iterations whose ends start + duration days are times Go can hold,
and whatever order the sort gives equal start dates: when exactly one iteration has a
half-open window `[start, start + duration days)` that contains `now`, the scan selects it
as current, and the resolver returns it together with the iteration just before it in the
sorted list whenever there is one (and fails for want of a previous iteration when there
is none). In particular, for A (2024-01-01, 14 days) and B (2024-01-15, 14 days) and any
instant of 2024-01-20, current is B and previous is A. -/
theorem C1_unique_window_is_current
    (sortSlice : List Iteration → List Iteration) (hsort : SortsByStartDate sortSlice) :
    (∀ (its : List Iteration) (fieldID : String) (now : Time) (c : Iteration),
      (∀ x ∈ its, endRepresentable x) →
      c ∈ its → windowContains now c →
      its.countP (fun x => decide (windowContains now x)) = 1 →
      ∃ pre post, sortSlice its = pre ++ c :: post ∧
        (pre ++ c :: post).Perm its ∧ StartSorted (pre ++ c :: post) ∧
        (scanFrom (sortSlice its) now (sortSlice its) 0 ⟨none, none⟩).current = some c ∧
        (∀ p, pre.getLast? = some p →
          GetIterations sortSlice its fieldID now = .ok ⟨c, p, fieldID⟩) ∧
        (pre = [] → GetIterations sortSlice its fieldID now = .error .NoPreviousIteration)) ∧
    (∀ (fieldID : String) (now : Time),
      ParseDate 2024 1 20 ≤ now.unixNano → now.unixNano < ParseDate 2024 1 21 →
      GetIterations sortSlice [iterationA, iterationB] fieldID now
        = .ok ⟨iterationB, iterationA, fieldID⟩) := by
  constructor
  · intro its fieldID now c hrep hc hw hcount
    have hperm := hsort.perm its
    have hsorted := hsort.sorted its
    obtain ⟨pre, post, hs⟩ := List.append_of_mem (hperm.mem_iff.2 hc)
    have hcount2 : (pre ++ c :: post).countP (fun x => decide (windowContains now x)) = 1 := by
      rw [← hs, hperm.countP_eq]; exact hcount
    have hpre0 : pre.countP (fun x => decide (windowContains now x)) = 0 := by
      rw [List.countP_append, List.countP_cons] at hcount2
      simp only [hw, decide_True, if_true] at hcount2
      omega
    rw [hs] at hsorted
    have hle : ∀ x ∈ pre, x.StartDate.unixNano ≤ c.StartDate.unixNano := by
      intro x hx
      exact (List.pairwise_append.1 hsorted).2.2 x hx c (List.mem_cons_self _ _)
    have hmem : ∀ x ∈ pre, x ∈ its := by
      intro x hx
      exact hperm.mem_iff.1 (by rw [hs]; simp [hx])
    have hended : ∀ x ∈ pre, countsAsEnded now x := by
      intro x hx
      have hnw : ¬ windowContains now x := by
        have := (List.countP_eq_zero.1 hpre0) x hx
        simpa using this
      have h1 := hle x hx
      rw [countsAsEnded_iff x now (hrep x (hmem x hx))]
      unfold windowContains at hnw hw
      unfold hasEnded
      by_contra hcon
      exact hnw ⟨le_trans h1 hw.1, not_le.1 hcon⟩
    have hcne : ¬ countsAsEnded now c := by
      rw [countsAsEnded_iff c now (hrep c hc)]
      unfold hasEnded; unfold windowContains at hw; exact not_le.2 hw.2
    have hres := resolve_of_split (sortSlice its) fieldID now pre post c hs hended hcne
    have hp : ∀ a ∈ pre, (fun x => decide (countsAsEnded now x)) a = true := by
      intro a ha; simpa using hended a ha
    refine ⟨pre, post, hs, hs ▸ hperm, hsorted, ?_, ?_, ?_⟩
    · rw [scanFrom_start, hs, List.dropWhile_append_of_pos hp]
      simp [hcne]
    · intro p hp2
      unfold GetIterations
      rw [hres, hp2]
    · intro hnil
      unfold GetIterations
      rw [hres, hnil]
      rfl
  · intro fieldID now h1 h2
    have e20 : ParseDate 2024 1 20 = 1705708800000000000 := by decide
    have e21 : ParseDate 2024 1 21 = 1705795200000000000 := by decide
    rw [e20] at h1
    rw [e21] at h2
    have hsort2 : sortSlice [iterationA, iterationB] = [iterationA] ++ iterationB :: [] :=
      sorted_perm_unique _ _ (by decide) (by unfold StartSorted; decide) (hsort.perm _)
        (hsort.sorted _)
    have hA : ∀ x ∈ [iterationA], countsAsEnded now x := by
      intro x hx
      simp only [List.mem_singleton] at hx
      subst hx
      have : (endDate iterationA).unixNano = 1705276800000000000 := by decide
      unfold countsAsEnded
      omega
    have hB : ¬ countsAsEnded now iterationB := by
      have : (endDate iterationB).unixNano = 1706486400000000000 := by decide
      unfold countsAsEnded
      omega
    unfold GetIterations
    rw [resolve_of_split _ fieldID now _ _ _ hsort2 hA hB]
    rfl

/-- C1 amended, at the worked example: B is the one iteration whose window contains noon
of 2024-01-20. -/
theorem C1_unique_window_is_current_witness :
    (∀ x ∈ [iterationA, iterationB], endRepresentable x) ∧
    iterationB ∈ [iterationA, iterationB] ∧
    windowContains (timeOn 2024 1 20 43200000000000 (by decide)) iterationB ∧
    [iterationA, iterationB].countP
      (fun x => decide (windowContains (timeOn 2024 1 20 43200000000000 (by decide)) x))
        = 1 ∧
    (∃ pre post, sortByStartDate [iterationA, iterationB] = pre ++ iterationB :: post ∧
      (pre ++ iterationB :: post).Perm [iterationA, iterationB] ∧
      StartSorted (pre ++ iterationB :: post) ∧
      (scanFrom (sortByStartDate [iterationA, iterationB])
        (timeOn 2024 1 20 43200000000000 (by decide))
        (sortByStartDate [iterationA, iterationB]) 0 ⟨none, none⟩).current
          = some iterationB ∧
      (∀ p, pre.getLast? = some p →
        GetIterations sortByStartDate [iterationA, iterationB] "F"
          (timeOn 2024 1 20 43200000000000 (by decide)) = .ok ⟨iterationB, p, "F"⟩) ∧
      (pre = [] →
        GetIterations sortByStartDate [iterationA, iterationB] "F"
          (timeOn 2024 1 20 43200000000000 (by decide)) = .error .NoPreviousIteration)) ∧
    GetIterations sortByStartDate [iterationA, iterationB] "F"
      (timeOn 2024 1 20 43200000000000 (by decide)) = .ok ⟨iterationB, iterationA, "F"⟩ :=
  ⟨by decide, by decide, by decide, by decide,
   (C1_unique_window_is_current sortByStartDate sortByStartDate_sorts).1
     [iterationA, iterationB] "F" (timeOn 2024 1 20 43200000000000 (by decide)) iterationB
     (by decide) (by decide) (by decide) (by decide),
   (C1_unique_window_is_current sortByStartDate sortByStartDate_sorts).2 "F"
     (timeOn 2024 1 20 43200000000000 (by decide)) (by decide) (by decide)⟩

/-- C2: with non-negative durations, and whatever order the sort gives equal start dates,
an iteration whose end start + duration days equals `now` is never the current iteration
the resolver returns (the returned current ends after `now`), and the scan step at such an
iteration makes it the previous candidate and goes on. This holds for any iteration `x`
with that end, in the list or not. -/
theorem C2_end_equal_now_is_previous_not_current
    (sortSlice : List Iteration → List Iteration) (hsort : SortsByStartDate sortSlice)
    (its : List Iteration) (fieldID : String) (now : Time) (x : Iteration)
    (hdur : ∀ y ∈ its, 0 ≤ y.Duration) (hend : endInstant x = now.unixNano) :
    (∀ info, GetIterations sortSlice its fieldID now = .ok info →
      info.Current ≠ x ∧ now.unixNano < endInstant info.Current) ∧
    (∀ (parsed rest : List Iteration) (i : Nat) (sel : Selection),
      scanFrom parsed now (x :: rest) i sel =
        scanFrom parsed now rest (i + 1) { sel with previous := some x }) := by
  constructor
  · intro info hok
    obtain ⟨hmem, hcur, -⟩ := resolve_ok (sortSlice its) fieldID now info hok
    have hd := hdur _ ((hsort.perm its).mem_iff.1 hmem)
    have hlt : now.unixNano < endInstant info.Current := by
      rcases hcur with h | h
      · by_cases hr : endRepresentable info.Current
        · rw [countsAsEnded_iff _ _ hr] at h
          unfold hasEnded at h
          omega
        · exact endInstant_gt_of_not_representable _ now hd hr
      · have hnn := start_le_end_of_nonneg _ hd
        unfold startsAfter at h
        omega
    refine ⟨?_, hlt⟩
    intro heq
    rw [heq, hend] at hlt
    exact lt_irrefl _ hlt
  · intro parsed rest i sel
    have hr : endRepresentable x := by
      unfold endRepresentable
      rw [hend]
      exact now.inRange
    have he : (endDate x).unixNano = now.unixNano := by
      rw [endDate_of_representable x hr, hend]
    have h1 : ¬ ((!After x.StartDate now && After (endDate x) now) = true) := by
      simp [After, he]
    have h2 : (Before (endDate x) now || Equal (endDate x) now) = true := by
      simp [Equal, he]
    rw [scanFrom, if_neg h1, if_pos h2]

/-- C2, at an instance: A ends at midnight of 2024-01-15, so at that instant it is not the
current iteration of A and B. -/
theorem C2_end_equal_now_is_previous_not_current_witness :
    (∀ y ∈ [iterationA, iterationB], 0 ≤ y.Duration) ∧
    endInstant iterationA = (timeOn 2024 1 15 0 (by decide)).unixNano ∧
    ((∀ info, GetIterations sortByStartDate [iterationA, iterationB] "F"
        (timeOn 2024 1 15 0 (by decide)) = .ok info →
      info.Current ≠ iterationA ∧
        (timeOn 2024 1 15 0 (by decide)).unixNano < endInstant info.Current) ∧
    (∀ (parsed rest : List Iteration) (i : Nat) (sel : Selection),
      scanFrom parsed (timeOn 2024 1 15 0 (by decide)) (iterationA :: rest) i sel =
        scanFrom parsed (timeOn 2024 1 15 0 (by decide)) rest (i + 1)
          { sel with previous := some iterationA })) :=
  ⟨by decide, by decide,
   C2_end_equal_now_is_previous_not_current sortByStartDate sortByStartDate_sorts
     [iterationA, iterationB] "F" (timeOn 2024 1 15 0 (by decide)) iterationA
     (by decide) (by decide)⟩

/-- C3, as the claim states it, fails: of A (2024-01-01, 14 days) and H (2024-02-01,
150000000000000 days) on 2024-01-20, no window contains `now`, A has ended and H starts
after `now`, but `AddDate` wraps the end of H to a time long past, the scan makes H the
previous candidate, and the resolver returns H as current and as previous, where the last
ended iteration is A. -/
theorem C3_gap_counterexample :
    (∀ y ∈ [iterationA, iterationHuge], 0 ≤ y.Duration) ∧
    (∀ y ∈ [iterationA, iterationHuge], ¬ windowContains jan20 y) ∧
    (hasEnded jan20 iterationA ∧ ¬ hasEnded jan20 iterationHuge) ∧
    startsAfter jan20 iterationHuge ∧
    GetIterations sortByStartDate [iterationA, iterationHuge] "F" jan20
      = .ok ⟨iterationHuge, iterationHuge, "F"⟩ ∧
    iterationHuge ≠ iterationA := by
  refine ⟨by decide, by decide, by decide, by decide, by rfl, by decide⟩

/-- C3, amended: for iterations whose ends start + duration days are times Go can hold,
and whatever order the sort gives equal start dates: with non-negative durations, when no
window contains `now`, some iteration has ended and some iteration starts after `now`, the
sorted list is ended iterations up to `p`, then `c`, and the resolver returns current `c`
and previous `p`: `c` starts after `now` and no iteration that starts after `now` starts
earlier, `p` has ended and no ended iteration starts later. -/
theorem C3_gap_picks_earliest_future
    (sortSlice : List Iteration → List Iteration) (hsort : SortsByStartDate sortSlice)
    (its : List Iteration) (fieldID : String) (now : Time)
    (hrep : ∀ y ∈ its, endRepresentable y)
    (hdur : ∀ y ∈ its, 0 ≤ y.Duration)
    (hnone : ∀ y ∈ its, ¬ windowContains now y)
    (hpast : ∃ y ∈ its, hasEnded now y)
    (hfut : ∃ y ∈ its, startsAfter now y) :
    ∃ pre p c post, sortSlice its = pre ++ p :: c :: post ∧
      GetIterations sortSlice its fieldID now = .ok ⟨c, p, fieldID⟩ ∧
      startsAfter now c ∧
      (∀ y ∈ its, startsAfter now y → c.StartDate.unixNano ≤ y.StartDate.unixNano) ∧
      hasEnded now p ∧ (∀ y ∈ pre, hasEnded now y) ∧
      (∀ y ∈ its, hasEnded now y → y.StartDate.unixNano ≤ p.StartDate.unixNano) := by
  have hperm := hsort.perm its
  have hsorted := hsort.sorted its
  -- every iteration either has ended or starts after now, never both
  have hcls : ∀ y ∈ its, ¬ hasEnded now y → startsAfter now y := by
    intro y hy hne
    have := hnone y hy
    unfold windowContains at this
    unfold hasEnded at hne
    unfold startsAfter
    by_contra hcon
    exact this ⟨not_lt.1 hcon, not_le.1 hne⟩
  have hexcl : ∀ y ∈ its, hasEnded now y → ¬ startsAfter now y := by
    intro y hy he hs
    have := start_le_end_of_nonneg _ (hdur _ hy)
    unfold hasEnded at he
    unfold startsAfter at hs
    omega
  have hsplit := List.takeWhile_append_dropWhile (fun x => decide (countsAsEnded now x))
    (sortSlice its)
  obtain ⟨f, hf, hfs⟩ := hfut
  cases hd : (sortSlice its).dropWhile (fun x => decide (countsAsEnded now x)) with
  | nil =>
    have hall := List.dropWhile_eq_nil_iff.1 hd f (hperm.mem_iff.2 hf)
    simp only [decide_eq_true_eq] at hall
    exact absurd hfs (hexcl f hf ((countsAsEnded_iff f now (hrep f hf)).1 hall))
  | cons c post =>
    rw [hd] at hsplit
    have hcmem : c ∈ its := hperm.mem_iff.1 (by rw [← hsplit]; simp)
    have hcce : ¬ countsAsEnded now c := by
      have := (head?_dropWhile_not _ (sortSlice its) c (by rw [hd]; rfl)).2
      simpa using this
    have hcne : ¬ hasEnded now c := by
      rw [← countsAsEnded_iff c now (hrep c hcmem)]; exact hcce
    have hpreC : ∀ y ∈ (sortSlice its).takeWhile (fun x => decide (countsAsEnded now x)),
        countsAsEnded now y := by
      intro y hy
      simpa using List.mem_takeWhile_imp hy
    have hpreM : ∀ y ∈ (sortSlice its).takeWhile (fun x => decide (countsAsEnded now x)),
        y ∈ its := by
      intro y hy
      exact hperm.mem_iff.1 ((List.takeWhile_sublist _).subset hy)
    have hpreE : ∀ y ∈ (sortSlice its).takeWhile (fun x => decide (countsAsEnded now x)),
        hasEnded now y := by
      intro y hy
      exact (countsAsEnded_iff y now (hrep y (hpreM y hy))).1 (hpreC y hy)
    have hcs : startsAfter now c := hcls c hcmem hcne
    rw [← hsplit] at hsorted
    have hpw := List.pairwise_append.1 hsorted
    have hcmin : ∀ y ∈ c :: post, c.StartDate.unixNano ≤ y.StartDate.unixNano := by
      intro y hy
      rcases List.mem_cons.1 hy with h | h
      · rw [h]
      · exact List.rel_of_pairwise_cons hpw.2.1 h
    cases hl : ((sortSlice its).takeWhile (fun x => decide (countsAsEnded now x))).getLast? with
    | none =>
      exfalso
      rw [List.getLast?_eq_none_iff] at hl
      rw [hl, List.nil_append] at hsplit
      obtain ⟨e, he, hee⟩ := hpast
      have hem : e ∈ c :: post := by rw [hsplit]; exact hperm.mem_iff.2 he
      have h1 := hcmin e hem
      have h2 := hexcl e he hee
      unfold startsAfter at h2 hcs
      omega
    | some p =>
      obtain ⟨pre, hpre⟩ := List.getLast?_eq_some_iff.1 hl
      rw [hpre] at hsplit hpreE hpreC hpw
      have hs : sortSlice its = pre ++ p :: c :: post := by
        rw [← hsplit]; simp
      have hs2 : sortSlice its = (pre ++ [p]) ++ c :: post := by
        rw [← hsplit]
      have hres := resolve_of_split (sortSlice its) fieldID now (pre ++ [p]) post c hs2
        hpreC hcce
      simp only [List.getLast?_append, List.getLast?_singleton, Option.or_some] at hres
      have hpE : hasEnded now p := hpreE p (by simp)
      refine ⟨pre, p, c, post, hs, ?_, hcs, ?_, hpE, ?_, ?_⟩
      · unfold GetIterations
        simpa using hres
      · intro y hy hys
        have hy2 : y ∈ (pre ++ [p]) ++ c :: post := by
          rw [← hs2]; exact hperm.mem_iff.2 hy
        rcases List.mem_append.1 hy2 with h | h
        · exact absurd hys (hexcl y hy (hpreE y h))
        · exact hcmin y h
      · intro y hy
        exact hpreE y (by simp [hy])
      · intro y hy hye
        have hy2 : y ∈ (pre ++ [p]) ++ c :: post := by
          rw [← hs2]; exact hperm.mem_iff.2 hy
        rcases List.mem_append.1 hy2 with h | h
        · rcases List.mem_append.1 h with h' | h'
          · exact (List.pairwise_append.1 hpw.1).2.2 y h' p (by simp)
          · simp only [List.mem_singleton] at h'
            rw [h']
        · have h1 := hcmin y h
          have h2 := hexcl y hy hye
          unfold startsAfter at h2 hcs
          omega

/-- C3 amended, at an instance: with B moved one week later there is a gap after A, and on
2024-01-17 the resolver returns the late B as current and A as previous. -/
theorem C3_gap_picks_earliest_future_witness :
    (∀ y ∈ [iterationLateB, iterationA], endRepresentable y) ∧
    (∀ y ∈ [iterationLateB, iterationA], 0 ≤ y.Duration) ∧
    (∀ y ∈ [iterationLateB, iterationA],
      ¬ windowContains (timeOn 2024 1 17 0 (by decide)) y) ∧
    (∃ y ∈ [iterationLateB, iterationA], hasEnded (timeOn 2024 1 17 0 (by decide)) y) ∧
    (∃ y ∈ [iterationLateB, iterationA], startsAfter (timeOn 2024 1 17 0 (by decide)) y) ∧
    (∃ pre p c post, sortByStartDate [iterationLateB, iterationA] = pre ++ p :: c :: post ∧
      GetIterations sortByStartDate [iterationLateB, iterationA] "F"
        (timeOn 2024 1 17 0 (by decide)) = .ok ⟨c, p, "F"⟩ ∧
      startsAfter (timeOn 2024 1 17 0 (by decide)) c ∧
      (∀ y ∈ [iterationLateB, iterationA],
        startsAfter (timeOn 2024 1 17 0 (by decide)) y →
          c.StartDate.unixNano ≤ y.StartDate.unixNano) ∧
      hasEnded (timeOn 2024 1 17 0 (by decide)) p ∧
      (∀ y ∈ pre, hasEnded (timeOn 2024 1 17 0 (by decide)) y) ∧
      (∀ y ∈ [iterationLateB, iterationA],
        hasEnded (timeOn 2024 1 17 0 (by decide)) y →
          y.StartDate.unixNano ≤ p.StartDate.unixNano)) :=
  ⟨by decide, by decide, by decide, by decide, by decide,
   C3_gap_picks_earliest_future sortByStartDate sortByStartDate_sorts
     [iterationLateB, iterationA] "F" (timeOn 2024 1 17 0 (by decide))
     (by decide) (by decide) (by decide) (by decide) (by decide)⟩

/-- C4, as the claim states it, fails: a single iteration that has ended makes the
resolver fail for want of a current iteration, not of a previous one; a single iteration
with a negative duration that starts after `now` and ends before it is returned as both
current and previous; and so is a single iteration that starts after `now` and lasts
150000000000000 days, whose end `AddDate` wraps to a time long past. -/
theorem C4_single_iteration_counterexample :
    (GetIterations sortByStartDate [iterationA] "F" jan20 = .error .NoCurrentIteration ∧
      GetIterations sortByStartDate [iterationA] "F" jan20
        ≠ .error .NoPreviousIteration) ∧
    GetIterations sortByStartDate [iterationBackwards] "F" jan20
      = .ok ⟨iterationBackwards, iterationBackwards, "F"⟩ ∧
    (0 ≤ iterationHuge.Duration ∧
      GetIterations sortByStartDate [iterationHuge] "F" jan20
        = .ok ⟨iterationHuge, iterationHuge, "F"⟩) := by
  refine ⟨⟨by rfl, ?_⟩, by rfl, by decide, by rfl⟩
  have h : GetIterations sortByStartDate [iterationA] "F" jan20
      = .error .NoCurrentIteration := by rfl
  rw [h]
  intro hcon
  cases hcon

/-- C4, amended: for a single iteration of non-negative duration whose end start +
duration days is a time Go can hold the resolver always fails: for want of a previous
iteration ("no previous iteration found - need at least 2 iterations to perform rollover")
when the iteration has not ended at `now`, and for want of a current iteration ("no
current or future iteration found") when it has. -/
theorem C4_single_iteration_fails
    (sortSlice : List Iteration → List Iteration) (hsort : SortsByStartDate sortSlice)
    (x : Iteration) (fieldID : String) (now : Time)
    (hdur : 0 ≤ x.Duration) (hrep : endRepresentable x) :
    (¬ hasEnded now x →
      GetIterations sortSlice [x] fieldID now = .error .NoPreviousIteration ∧
      ResolveError.message .NoPreviousIteration =
        "no previous iteration found - need at least 2 iterations to perform rollover") ∧
    (hasEnded now x →
      GetIterations sortSlice [x] fieldID now = .error .NoCurrentIteration ∧
      ResolveError.message .NoCurrentIteration = "no current or future iteration found") := by
  have hs : sortSlice [x] = [x] := List.perm_singleton.1 (hsort.perm [x])
  constructor
  · intro hne
    refine ⟨?_, rfl⟩
    have hc : ¬ countsAsEnded now x := by
      rw [countsAsEnded_iff x now hrep]; exact hne
    have := resolve_of_split (sortSlice [x]) fieldID now [] [] x hs (by simp) hc
    unfold GetIterations
    simpa using this
  · intro he
    refine ⟨?_, rfl⟩
    have hc : countsAsEnded now x := (countsAsEnded_iff x now hrep).2 he
    have hnf : ¬ startsAfter now x := by
      have := start_le_end_of_nonneg x hdur
      unfold hasEnded at he
      unfold startsAfter
      omega
    unfold GetIterations
    rw [resolve_eq, hs, firstFuture_eq_none now [x] (by simpa using hnf)]
    simp [hc]

/-- C4 amended, at two instances: A alone fails for want of a current iteration on
2024-01-20, after its end, and for want of a previous one on 2024-01-10, within it. -/
theorem C4_single_iteration_fails_witness :
    0 ≤ iterationA.Duration ∧ endRepresentable iterationA ∧
    (hasEnded jan20 iterationA ∧
      GetIterations sortByStartDate [iterationA] "F" jan20 = .error .NoCurrentIteration) ∧
    (¬ hasEnded (timeOn 2024 1 10 0 (by decide)) iterationA ∧
      GetIterations sortByStartDate [iterationA] "F" (timeOn 2024 1 10 0 (by decide))
        = .error .NoPreviousIteration) :=
  ⟨by decide, by decide,
   ⟨by decide,
    ((C4_single_iteration_fails sortByStartDate sortByStartDate_sorts iterationA "F" jan20
      (by decide) (by decide)).2 (by decide)).1⟩,
   ⟨by decide,
    ((C4_single_iteration_fails sortByStartDate sortByStartDate_sorts iterationA "F"
      (timeOn 2024 1 10 0 (by decide)) (by decide) (by decide)).1 (by decide)).1⟩⟩

/-- C5, as the claim states it, fails: the single iteration L (2024-01-01,
-150000000000000 days) ended, by its start + duration days, long before 2024-01-20 and
does not start after it, but `AddDate` wraps the end of L to a time far ahead, the scan
takes L as current, and the resolver fails for want of a previous iteration. -/
theorem C5_all_past_counterexample :
    [iterationLongPast] ≠ [] ∧
    (∀ x ∈ [iterationLongPast], endInstant x < jan20.unixNano) ∧
    (∀ x ∈ [iterationLongPast], ¬ startsAfter jan20 x) ∧
    GetIterations sortByStartDate [iterationLongPast] "F" jan20
      = .error .NoPreviousIteration ∧
    ResolveError.message .NoPreviousIteration ≠ "no current or future iteration found" := by
  refine ⟨by decide, by decide, by decide, by rfl, by decide⟩

/-- C5, amended: for iterations whose ends start + duration days are times Go can hold,
and whatever order the sort gives equal start dates: when the list is not empty, every
iteration ended strictly before `now` and none starts after `now`, the resolver fails with
"no current or future iteration found", and not with the missing-previous error. -/
theorem C5_all_past_no_current
    (sortSlice : List Iteration → List Iteration) (hsort : SortsByStartDate sortSlice)
    (its : List Iteration) (fieldID : String) (now : Time)
    (_hne : its ≠ [])
    (hrep : ∀ x ∈ its, endRepresentable x)
    (hpast : ∀ x ∈ its, endInstant x < now.unixNano)
    (hfut : ∀ x ∈ its, ¬ startsAfter now x) :
    ∃ e, GetIterations sortSlice its fieldID now = .error e ∧
      e.message = "no current or future iteration found" ∧
      e = .NoCurrentIteration ∧ e ≠ .NoPreviousIteration := by
  have hperm := hsort.perm its
  refine ⟨.NoCurrentIteration, ?_, rfl, rfl, by decide⟩
  have hall : ∀ x ∈ sortSlice its, (fun x => decide (countsAsEnded now x)) x = true := by
    intro x hx
    have hm := hperm.mem_iff.1 hx
    have h := hpast x hm
    simp only [decide_eq_true_eq]
    rw [countsAsEnded_iff x now (hrep x hm)]
    unfold hasEnded
    omega
  unfold GetIterations
  rw [resolve_eq, List.dropWhile_eq_nil_iff.2 hall,
    firstFuture_eq_none now _ (fun x hx => hfut x (hperm.mem_iff.1 hx))]
  rfl

/-- C5 amended, at an instance: on 2024-03-01 both A and B are over. -/
theorem C5_all_past_no_current_witness :
    [iterationA, iterationB] ≠ [] ∧
    (∀ x ∈ [iterationA, iterationB], endRepresentable x) ∧
    (∀ x ∈ [iterationA, iterationB],
      endInstant x < (timeOn 2024 3 1 0 (by decide)).unixNano) ∧
    (∀ x ∈ [iterationA, iterationB], ¬ startsAfter (timeOn 2024 3 1 0 (by decide)) x) ∧
    (∃ e, GetIterations sortByStartDate [iterationA, iterationB] "F"
        (timeOn 2024 3 1 0 (by decide)) = .error e ∧
      e.message = "no current or future iteration found" ∧
      e = .NoCurrentIteration ∧ e ≠ .NoPreviousIteration) :=
  ⟨by decide, by decide, by decide, by decide,
   C5_all_past_no_current sortByStartDate sortByStartDate_sorts [iterationA, iterationB]
     "F" (timeOn 2024 3 1 0 (by decide)) (by decide) (by decide) (by decide) (by decide)⟩

/-! ## Properties of the issue filter -/

theorem marksDone_iff (fv : FieldValue) : marksDone fv = true ↔ isDoneValue fv := by
  have e1 : ToLower "status" = "status" := by decide
  have e2 : ToLower "state" = "state" := by decide
  have e3 : ToLower "done" = "done" := by decide
  have e4 : ToLower "completed" = "completed" := by decide
  have e5 : ToLower "closed" = "closed" := by decide
  unfold marksDone isDoneValue equalsIgnoringCase
  rw [e1, e2, e3, e4, e5]
  by_cases h : fv.TypeName = "ProjectV2ItemFieldSingleSelectValue"
  · simp [h, or_assoc]
  · simp [h]

theorem scanFieldValues_iff (l : List FieldValue) :
    scanFieldValues l = true ↔ ∃ fv ∈ l, isDoneValue fv := by
  induction l with
  | nil => simp [scanFieldValues]
  | cons fv rest ih =>
    by_cases h : marksDone fv = true
    · rw [scanFieldValues, if_pos h]
      simp [(marksDone_iff fv).1 h]
    · rw [scanFieldValues, if_neg h, ih]
      have : ¬ isDoneValue fv := fun hc => h ((marksDone_iff fv).2 hc)
      simp [this]

theorem scanProjectItems_iff (l : List ProjectItem) :
    scanProjectItems l = true ↔
      ∃ item ∈ l, ∃ fv ∈ item.FieldValues.Nodes, isDoneValue fv := by
  induction l with
  | nil => simp [scanProjectItems]
  | cons item rest ih =>
    by_cases h : scanFieldValues item.FieldValues.Nodes = true
    · rw [scanProjectItems, if_pos h]
      have := (scanFieldValues_iff _).1 h
      simp [this]
    · rw [scanProjectItems, if_neg h, ih]
      have : ¬ ∃ fv ∈ item.FieldValues.Nodes, isDoneValue fv :=
        fun hc => h ((scanFieldValues_iff _).2 hc)
      simp [this]

theorem FilterIncompleteIssues_eq_filter (issues : List Issue) (projectID : String) :
    FilterIncompleteIssues issues projectID
      = issues.filter (fun issue => decide (¬ isComplete issue)) := by
  induction issues with
  | nil => rfl
  | cons issue rest ih =>
    by_cases hc : issue.State = "CLOSED"
    · rw [FilterIncompleteIssues, if_pos hc, ih]
      have : isComplete issue := Or.inl hc
      simp [this]
    · by_cases hd : scanProjectItems issue.ProjectItems.Nodes = true
      · have h2 : ¬ ((!scanProjectItems issue.ProjectItems.Nodes) = true) := by simp [hd]
        rw [FilterIncompleteIssues, if_neg hc, if_neg h2, ih]
        have : isComplete issue := Or.inr ((scanProjectItems_iff _).1 hd)
        simp [this]
      · have h2 : (!scanProjectItems issue.ProjectItems.Nodes) = true := by simpa using hd
        rw [FilterIncompleteIssues, if_neg hc, if_pos h2, ih]
        have : ¬ isComplete issue := by
          intro h
          rcases h with h | h
          · exact hc h
          · exact hd ((scanProjectItems_iff _).2 h)
        simp [this]

/-- C6: the output of `FilterIncompleteIssues` contains no issue whose state is closed and
no issue one of whose project items carries a single-select value of a field named status
or state, in any case of letters, that reads done, completed or closed, in any case of
letters. -/
theorem C6_filter_excludes_complete (issues : List Issue) (projectID : String) :
    ∀ issue ∈ FilterIncompleteIssues issues projectID,
      ¬ isClosed issue ∧
      ¬ ∃ projectItem ∈ issue.ProjectItems.Nodes,
          ∃ fieldValue ∈ projectItem.FieldValues.Nodes,
            fieldValue.TypeName = "ProjectV2ItemFieldSingleSelectValue" ∧
            (equalsIgnoringCase fieldValue.Field.Name "status" ∨
              equalsIgnoringCase fieldValue.Field.Name "state") ∧
            (equalsIgnoringCase fieldValue.Title "done" ∨
              equalsIgnoringCase fieldValue.Title "completed" ∨
              equalsIgnoringCase fieldValue.Title "closed") := by
  intro issue hmem
  rw [FilterIncompleteIssues_eq_filter, List.mem_filter] at hmem
  have h : ¬ isComplete issue := by simpa using hmem.2
  exact ⟨fun hc => h (Or.inl hc), fun hd => h (Or.inr hd)⟩

/-- C6, at an instance: of an open issue in progress, a closed one, one whose status is
done and one without status, the first is kept, and it is neither closed nor done. -/
theorem C6_filter_excludes_complete_witness :
    issueOpen ∈ FilterIncompleteIssues [issueOpen, issueClosed, issueDone, issueBare] "P" ∧
    (¬ isClosed issueOpen ∧
      ¬ ∃ projectItem ∈ issueOpen.ProjectItems.Nodes,
          ∃ fieldValue ∈ projectItem.FieldValues.Nodes,
            fieldValue.TypeName = "ProjectV2ItemFieldSingleSelectValue" ∧
            (equalsIgnoringCase fieldValue.Field.Name "status" ∨
              equalsIgnoringCase fieldValue.Field.Name "state") ∧
            (equalsIgnoringCase fieldValue.Title "done" ∨
              equalsIgnoringCase fieldValue.Title "completed" ∨
              equalsIgnoringCase fieldValue.Title "closed")) :=
  ⟨by decide,
   C6_filter_excludes_complete [issueOpen, issueClosed, issueDone, issueBare] "P"
     issueOpen (by decide)⟩

/-- C7: `FilterIncompleteIssues` returns its input with exactly the complete issues
removed: a sublist of the input, in the order of the input, that holds an issue of the
input if and only if the issue is not complete. -/
theorem C7_filter_is_input_without_complete (issues : List Issue) (projectID : String) :
    FilterIncompleteIssues issues projectID
      = issues.filter (fun issue => decide (¬ isComplete issue)) ∧
    (FilterIncompleteIssues issues projectID).Sublist issues ∧
    (∀ issue, issue ∈ FilterIncompleteIssues issues projectID ↔
      issue ∈ issues ∧ ¬ isComplete issue) ∧
    (∀ issue, ¬ isComplete issue →
      (FilterIncompleteIssues issues projectID).count issue = issues.count issue) := by
  rw [FilterIncompleteIssues_eq_filter]
  refine ⟨rfl, List.filter_sublist _, ?_, ?_⟩
  · intro issue
    simp [List.mem_filter]
  · intro issue h
    rw [List.count_filter]
    simpa using h

/-- C7, at an instance: the issue without status is not complete and is kept once, and
the output is the first and the last of the four issues. -/
theorem C7_filter_is_input_without_complete_witness :
    ¬ isComplete issueBare ∧
    (FilterIncompleteIssues [issueOpen, issueClosed, issueDone, issueBare] "P").count issueBare
      = [issueOpen, issueClosed, issueDone, issueBare].count issueBare ∧
    FilterIncompleteIssues [issueOpen, issueClosed, issueDone, issueBare] "P"
      = [issueOpen, issueBare] :=
  ⟨by decide,
   (C7_filter_is_input_without_complete [issueOpen, issueClosed, issueDone, issueBare]
     "P").2.2.2 issueBare (by decide),
   by decide⟩

/-- C8: `FilterIncompleteIssues` is idempotent, whatever the two `projectID` arguments. -/
theorem C8_filter_idempotent (issues : List Issue) (p q : String) :
    FilterIncompleteIssues (FilterIncompleteIssues issues p) q
      = FilterIncompleteIssues issues p := by
  rw [FilterIncompleteIssues_eq_filter (FilterIncompleteIssues issues p) q,
    FilterIncompleteIssues_eq_filter issues p, List.filter_filter]
  simp

/-! ## Properties of the rollover command -/

theorem expectedLog_append (w : World) (n : Nat) (a b : List UpdateCall) :
    expectedLog w n (a ++ b) = expectedLog w n a ++ expectedLog w (n + a.length) b := by
  induction a generalizing n with
  | nil => simp [expectedLog]
  | cons c rest ih =>
    show (c, w.graphQLUpdate n c) :: expectedLog w (n + 1) (rest ++ b) =
      (c, w.graphQLUpdate n c) ::
        (expectedLog w (n + 1) rest ++ expectedLog w (n + (rest.length + 1)) b)
    rw [ih (n + 1), show n + 1 + rest.length = n + (rest.length + 1) by omega]

theorem expectedLog_map_fst (w : World) (n : Nat) (calls : List UpdateCall) :
    (expectedLog w n calls).map Prod.fst = calls := by
  induction calls generalizing n with
  | nil => rfl
  | cons c rest ih => simp [expectedLog, ih]

theorem print_updates (st : RunState) (chunk : String) :
    (st.print chunk).updates = st.updates := rfl

theorem moveItems_updates (w : World) (projectID : String) (info : IterationInfo)
    (issue : Issue) (i total : Nat) (items : List ProjectItem) (st : RunState) :
    (moveItems w projectID info issue i total items st).updates =
      st.updates ++ expectedLog w st.updates.length
        (items.map (fun item =>
          { projectId := projectID, itemId := item.ID, fieldId := info.FieldID,
            iterationId := info.Current.ID })) := by
  induction items generalizing st with
  | nil => simp [moveItems, expectedLog]
  | cons item rest ih =>
    rw [moveItems]
    unfold UpdateItemIteration
    cases hw : w.graphQLUpdate st.updates.length
        { projectId := projectID, itemId := item.ID, fieldId := info.FieldID,
          iterationId := info.Current.ID } with
    | none => simp [hw, ih, print_updates, expectedLog]
    | some e => simp [hw, ih, print_updates, expectedLog]

theorem moveIssues_updates (w : World) (projectID : String) (info : IterationInfo)
    (total : Nat) (issues : List Issue) (i : Nat) (st : RunState) :
    (moveIssues w projectID info total issues i st).updates =
      st.updates ++ expectedLog w st.updates.length (expectedUpdates projectID info issues) := by
  induction issues generalizing i st with
  | nil => simp [moveIssues, expectedUpdates, expectedLog]
  | cons issue rest ih =>
    rw [moveIssues, ih, moveItems_updates]
    unfold expectedUpdates
    simp [expectedLog_append, expectedLog_map_fst]
    have := expectedLog_map_fst w st.updates.length
      (issue.ProjectItems.Nodes.map (fun item =>
        ({ projectId := projectID, itemId := item.ID, fieldId := info.FieldID,
           iterationId := info.Current.ID } : UpdateCall)))
    have hlen := congrArg List.length this
    simp at hlen
    rw [hlen]

theorem ShowSummary_updates (t m : Int) (d : Bool) (st : RunState) :
    (ShowSummary t m d st).updates = st.updates := by
  unfold ShowSummary
  cases d <;> simp [print_updates]

theorem printIssues_updates (issues : List Issue) (st : RunState) :
    (printIssues issues st).updates = st.updates := by
  induction issues generalizing st with
  | nil => rfl
  | cons issue rest ih => rw [printIssues, ih, print_updates]

theorem applyRollover_updates (base : BaseCommand) (w : World) (projectID : String)
    (info : IterationInfo) (incompleteIssues issuesToMove : List Issue) (st : RunState)
    (hdry : base.DryRun = false) :
    (applyRollover base w projectID info incompleteIssues issuesToMove st).state.updates =
      st.updates ++
        expectedLog w st.updates.length (expectedUpdates projectID info issuesToMove) := by
  unfold applyRollover
  simp only [ShowSummary_updates]
  by_cases hlen : 0 < issuesToMove.length
  · rw [if_pos ⟨hdry, hlen⟩, moveIssues_updates, print_updates]
  · rw [if_neg (fun h => hlen h.2)]
    have : issuesToMove = [] := List.length_eq_zero.1 (by omega)
    subst this
    simp [expectedUpdates, expectedLog]

/-- C9, evaluated where it fails: in a silent run that is not a dry run, with one
incomplete issue whose single update request fails, the run prints the failure and then
reports one issue as moved although no update request succeeded. -/
theorem C9_summary_counts_failed_updates :
    (runIterationRollover baseSilent worldAllFail "P" infoAB [issueBare]
      RunState.initial).outcome = .returned none ∧
    (runIterationRollover baseSilent worldAllFail "P" infoAB [issueBare]
      RunState.initial).state.updates =
        [(⟨"P", "PVTI_4", "F", "B"⟩, some "GraphQL request failed with status 502")] ∧
    succeededUpdates (runIterationRollover baseSilent worldAllFail "P" infoAB [issueBare]
      RunState.initial).state = 0 ∧
    (runIterationRollover baseSilent worldAllFail "P" infoAB [issueBare]
      RunState.initial).state.out.drop 11 =
        ["❌ Failed to move issue #4: failed to update item iteration: GraphQL request failed with status 502\n",
         "\n==================================================\n",
         "📊 Summary\n",
         "==================================================\n",
         "Total incomplete issues found: 1\n",
         "Issues moved to current iteration: 1\n",
         "Issues skipped: 0\n"] := by
  refine ⟨by decide, by decide, by decide, by decide⟩

/-- C10: a run that is not a dry run makes exactly one update request for every project
item of every selected issue, in list order, whatever errors the requests return, records
for each the error the world holds for it, and returns nil. This holds from any state for
the end of the command once the issues to move are chosen, and for the whole of a silent
run, which moves all incomplete issues. -/
theorem C10_every_item_attempted_once
    (base : BaseCommand) (w : World) (projectID : String) (info : IterationInfo)
    (hdry : base.DryRun = false) :
    (∀ (incompleteIssues issuesToMove : List Issue) (st : RunState),
      (applyRollover base w projectID info incompleteIssues issuesToMove st).outcome
        = .returned none ∧
      (applyRollover base w projectID info incompleteIssues issuesToMove st).state.updates
        = st.updates ++
            expectedLog w st.updates.length (expectedUpdates projectID info issuesToMove) ∧
      ((applyRollover base w projectID info incompleteIssues issuesToMove st).state.updates.drop
          st.updates.length).map Prod.fst
        = expectedUpdates projectID info issuesToMove) ∧
    (∀ (issues : List Issue), base.Silent = true →
      (runIterationRollover base w projectID info issues RunState.initial).outcome
        = .returned none ∧
      (runIterationRollover base w projectID info issues RunState.initial).state.updates
        = expectedLog w 0
            (expectedUpdates projectID info (FilterIncompleteIssues issues projectID))) := by
  constructor
  · intro incompleteIssues issuesToMove st
    have h := applyRollover_updates base w projectID info incompleteIssues issuesToMove st hdry
    refine ⟨rfl, h, ?_⟩
    rw [h, List.drop_left, expectedLog_map_fst]
  · intro issues hsilent
    unfold runIterationRollover
    by_cases hlen : (FilterIncompleteIssues issues projectID).length = 0
    · simp only [hlen, if_true]
      have : FilterIncompleteIssues issues projectID = [] := List.length_eq_zero.1 hlen
      rw [this]
      exact ⟨trivial, rfl⟩
    · simp only [hlen, if_false]
      unfold selectIssues
      simp only [hsilent, if_true]
      refine ⟨rfl, ?_⟩
      rw [applyRollover_updates _ _ _ _ _ _ _ hdry]
      simp [print_updates, PrintIssueList, printIssues_updates, PrintIterationInfo,
        RunState.initial]

/-- C10, at an instance: three incomplete issues are moved in a silent run in which the
second update request fails; all three requests are made, in order. -/
theorem C10_every_item_attempted_once_witness :
    baseSilent.DryRun = false ∧ baseSilent.Silent = true ∧
    (runIterationRollover baseSilent worldSecondFails "P" infoAB
      [issueOpen, issueClosed, issueBare, issueDone, issueBare] RunState.initial).outcome
        = .returned none ∧
    (runIterationRollover baseSilent worldSecondFails "P" infoAB
      [issueOpen, issueClosed, issueBare, issueDone, issueBare] RunState.initial).state.updates
        = [(⟨"P", "PVTI_1", "F", "B"⟩, none),
           (⟨"P", "PVTI_4", "F", "B"⟩, some "GraphQL request failed with status 502"),
           (⟨"P", "PVTI_4", "F", "B"⟩, none)] :=
  ⟨by decide, by decide,
   ((C10_every_item_attempted_once baseSilent worldSecondFails "P" infoAB (by decide)).2
      [issueOpen, issueClosed, issueBare, issueDone, issueBare] (by decide)).1,
   ((C10_every_item_attempted_once baseSilent worldSecondFails "P" infoAB (by decide)).2
      [issueOpen, issueClosed, issueBare, issueDone, issueBare] (by decide)).2.trans
      (by decide)⟩

/-! ## The rollover command in a dry run -/

theorem ConfirmIssue_updates (w : World) (issue : Issue) (st : RunState) :
    (ConfirmIssue w issue st).2.updates = st.updates := by
  unfold ConfirmIssue
  simp only
  split
  · rfl
  · split <;> rfl

theorem reviewIssues_updates (w : World) (issues issuesToMove : List Issue) (st : RunState) :
    (reviewIssues w issues issuesToMove st).2.updates = st.updates := by
  induction issues generalizing issuesToMove st with
  | nil => rfl
  | cons issue rest ih =>
    have hc := ConfirmIssue_updates w issue st
    rw [reviewIssues]
    rcases hci : ConfirmIssue w issue st with ⟨answer, st1⟩
    rw [hci] at hc
    rcases answer with _ | _ | _
    · exact hc
    · simp only [ih]; exact hc
    · simp only [ih]; exact hc

theorem selectIssues_updates (base : BaseCommand) (w : World) (incompleteIssues : List Issue)
    (st : RunState) :
    (selectIssues base w incompleteIssues st).2.updates = st.updates := by
  unfold selectIssues
  split
  · rfl
  · rw [reviewIssues_updates, print_updates]

theorem PrintIterationInfo_updates (info : IterationInfo) (st : RunState) :
    (PrintIterationInfo info st).updates = st.updates := rfl

theorem PrintIssueList_updates (issues : List Issue) (title : String) (st : RunState) :
    (PrintIssueList issues title st).updates = st.updates := by
  unfold PrintIssueList
  simp only [printIssues_updates, print_updates]

theorem applyRollover_dryRun (base : BaseCommand) (w : World) (projectID : String)
    (info : IterationInfo) (incompleteIssues issuesToMove : List Issue) (st : RunState)
    (hdry : base.DryRun = true) :
    applyRollover base w projectID info incompleteIssues issuesToMove st =
      { outcome := .returned none
        state := ShowSummary incompleteIssues.length issuesToMove.length true st } := by
  unfold applyRollover
  simp [hdry]

/-- C13: in a dry run `UpdateItemIteration` is never called: the whole run, silent or
with prompts, whatever the answers, leaves the record of update requests as it found it;
and once the issues to move are chosen, the command makes no request, prints the summary
with the number of issues that would be moved, and returns nil. A run with incomplete
issues whose selection ends without `q` goes on to that end of the command. -/
theorem C13_dry_run_makes_no_update
    (base : BaseCommand) (w : World) (projectID : String) (info : IterationInfo)
    (hdry : base.DryRun = true) :
    (∀ (issues : List Issue) (st : RunState),
      (runIterationRollover base w projectID info issues st).state.updates = st.updates) ∧
    (∀ (incompleteIssues issuesToMove : List Issue) (st : RunState),
      (applyRollover base w projectID info incompleteIssues issuesToMove st).outcome
        = .returned none ∧
      (applyRollover base w projectID info incompleteIssues issuesToMove st).state.updates
        = st.updates ∧
      (applyRollover base w projectID info incompleteIssues issuesToMove st).state.out
        = st.out ++
          ["\n" ++ Repeat "=" 50 ++ "\n",
           "📊 Summary\n",
           Repeat "=" 50 ++ "\n",
           "Total incomplete issues found: "
             ++ toString (incompleteIssues.length : Int) ++ "\n",
           "Issues that would be moved: " ++ toString (issuesToMove.length : Int) ++ "\n",
           "\n🔍 This was a dry run. No changes were made.\n"]) ∧
    (∀ (issues issuesToMove : List Issue) (st st1 : RunState),
      FilterIncompleteIssues issues projectID ≠ [] →
      selectIssues base w (FilterIncompleteIssues issues projectID)
        (PrintIssueList (FilterIncompleteIssues issues projectID) "📋 Incomplete issues found"
          ((PrintIterationInfo info st).print
            "\n🔍 Fetching issues from previous iteration...\n"))
        = (some issuesToMove, st1) →
      runIterationRollover base w projectID info issues st
        = applyRollover base w projectID info (FilterIncompleteIssues issues projectID)
            issuesToMove st1) := by
  refine ⟨?_, ?_, ?_⟩
  · intro issues st
    unfold runIterationRollover
    simp only
    split
    · rfl
    · have hsel := selectIssues_updates base w (FilterIncompleteIssues issues projectID)
        (PrintIssueList (FilterIncompleteIssues issues projectID) "📋 Incomplete issues found"
          ((PrintIterationInfo info st).print
            "\n🔍 Fetching issues from previous iteration...\n"))
      rw [PrintIssueList_updates, print_updates, PrintIterationInfo_updates] at hsel
      split
      · rename_i st1 heq
        rw [heq] at hsel
        exact hsel
      · rename_i issuesToMove st1 heq
        rw [heq] at hsel
        rw [applyRollover_dryRun _ _ _ _ _ _ _ hdry]
        simp only [ShowSummary_updates]
        exact hsel
  · intro incompleteIssues issuesToMove st
    rw [applyRollover_dryRun _ _ _ _ _ _ _ hdry]
    refine ⟨rfl, ShowSummary_updates _ _ _ _, ?_⟩
    simp [ShowSummary, RunState.print]
  · intro issues issuesToMove st st1 hne hsel
    have hlen : ¬ (FilterIncompleteIssues issues projectID).length = 0 :=
      fun h => hne (List.length_eq_zero.1 h)
    unfold runIterationRollover
    simp only [hlen, if_false, hsel]

/-- C13, at an instance: a dry run with prompts, all answered `y`, over four issues of
which two are incomplete: no update request is made, and the summary reports the two
issues that would be moved. -/
theorem C13_dry_run_makes_no_update_witness :
    baseDryRun.DryRun = true ∧
    (runIterationRollover baseDryRun worldAllFail "P" infoAB
      [issueOpen, issueClosed, issueDone, issueBare] RunState.initial).state.updates = [] ∧
    (runIterationRollover baseDryRun worldAllFail "P" infoAB
      [issueOpen, issueClosed, issueDone, issueBare] RunState.initial).state.out.drop 19 =
        ["\n==================================================\n",
         "📊 Summary\n",
         "==================================================\n",
         "Total incomplete issues found: 2\n",
         "Issues that would be moved: 2\n",
         "\n🔍 This was a dry run. No changes were made.\n"] :=
  ⟨by decide,
   (C13_dry_run_makes_no_update baseDryRun worldAllFail "P" infoAB (by decide)).1
     [issueOpen, issueClosed, issueDone, issueBare] RunState.initial,
   by decide⟩

/-! ## Further properties of the iteration resolver -/

/-- C15: the resolver does not depend on the order of its input: for iterations with
pairwise distinct start dates, and whatever sort `sort.Slice` is, every permutation of the
list gives the same outcome, the same current and previous iterations or the same
failure. -/
theorem C15_resolver_order_independent
    (sortSlice : List Iteration → List Iteration) (hsort : SortsByStartDate sortSlice)
    (its its' : List Iteration) (fieldID : String) (now : Time)
    (hdistinct : its.Pairwise (fun a b => a.StartDate.unixNano ≠ b.StartDate.unixNano))
    (hperm : its'.Perm its) :
    GetIterations sortSlice its' fieldID now = GetIterations sortSlice its fieldID now := by
  have hnodup : (its.map (fun a => a.StartDate.unixNano)).Nodup := by
    unfold List.Nodup
    rw [List.pairwise_map]
    exact hdistinct
  have hinj := List.inj_on_of_nodup_map hnodup
  have hp1 := hsort.perm its
  have hp2 := hsort.perm its'
  have hsorted : sortSlice its' = sortSlice its := by
    have hs1 : (sortSlice its').Pairwise
        (fun a b => a.StartDate.unixNano ≤ b.StartDate.unixNano) := hsort.sorted its'
    have hs2 : (sortSlice its).Pairwise
        (fun a b => a.StartDate.unixNano ≤ b.StartDate.unixNano) := hsort.sorted its
    refine List.Perm.eq_of_sorted ?_ hs1 hs2 (hp2.trans (hperm.trans hp1.symm))
    intro a b ha hb hab hba
    exact hinj (hperm.mem_iff.1 (hp2.mem_iff.1 ha)) (hp1.mem_iff.1 hb) (le_antisymm hab hba)
  unfold GetIterations
  rw [hsorted]

/-- C15, at an instance: A, B and C in two different orders resolve alike. -/
theorem C15_resolver_order_independent_witness :
    [iterationA, iterationB, iterationC].Pairwise
      (fun a b => a.StartDate.unixNano ≠ b.StartDate.unixNano) ∧
    [iterationC, iterationA, iterationB].Perm [iterationA, iterationB, iterationC] ∧
    GetIterations sortByStartDate [iterationC, iterationA, iterationB] "F" jan20
      = GetIterations sortByStartDate [iterationA, iterationB, iterationC] "F" jan20 ∧
    GetIterations sortByStartDate [iterationC, iterationA, iterationB] "F" jan20
      = .ok ⟨iterationB, iterationA, "F"⟩ :=
  ⟨by decide, by decide,
   C15_resolver_order_independent sortByStartDate sortByStartDate_sorts
     [iterationA, iterationB, iterationC] [iterationC, iterationA, iterationB] "F" jan20
     (by decide) (by decide),
   by rfl⟩

/-- C16, as the claim states it, fails: of A (2024-01-01, 14 days) and H (2024-02-01,
150000000000000 days) on 2024-01-20 the resolver succeeds and returns H as current and as
previous: the two are not distinct, and the previous iteration has not ended, its end
start + duration days being after `now`. -/
theorem C16_previous_ended_counterexample :
    (∀ y ∈ [iterationA, iterationHuge], 0 ≤ y.Duration) ∧
    (∃ info, GetIterations sortByStartDate [iterationA, iterationHuge] "F" jan20 = .ok info ∧
      info.Current = info.Previous ∧ ¬ hasEnded jan20 info.Previous ∧
      jan20.unixNano < endInstant info.Previous) := by
  refine ⟨by decide, ⟨iterationHuge, iterationHuge, "F"⟩, by rfl, rfl, by decide, by decide⟩

/-- C16, amended: for iterations whose ends start + duration days are times Go can hold,
and whatever order the sort gives equal start dates: with non-negative durations, a
successful resolution returns a previous iteration that has ended (its start + duration
days is at or before `now`) and a current iteration that has not (its start + duration
days is after `now`); previous is the element just before current in the sorted list, and
the two are different iterations. -/
theorem C16_previous_ended_current_not
    (sortSlice : List Iteration → List Iteration) (hsort : SortsByStartDate sortSlice)
    (its : List Iteration) (fieldID : String) (now : Time) (info : IterationInfo)
    (hrep : ∀ y ∈ its, endRepresentable y)
    (hdur : ∀ y ∈ its, 0 ≤ y.Duration)
    (hok : GetIterations sortSlice its fieldID now = .ok info) :
    endInstant info.Previous ≤ now.unixNano ∧ now.unixNano < endInstant info.Current ∧
    (∃ pre post, sortSlice its = pre ++ info.Previous :: info.Current :: post) ∧
    info.Current ≠ info.Previous := by
  have hperm := hsort.perm its
  have hrep2 : ∀ y ∈ sortSlice its, endRepresentable y :=
    fun y hy => hrep y (hperm.mem_iff.1 hy)
  have hdur2 : ∀ y ∈ sortSlice its, 0 ≤ y.Duration :=
    fun y hy => hdur y (hperm.mem_iff.1 hy)
  have hsplit := List.takeWhile_append_dropWhile (fun x => decide (countsAsEnded now x))
    (sortSlice its)
  unfold GetIterations at hok
  rw [resolve_eq] at hok
  cases hd : ((sortSlice its).dropWhile (fun x => decide (countsAsEnded now x))).head? with
  | none =>
    exfalso
    have hall := all_ended_of_head?_dropWhile_none now _ hd
    have hff := firstFuture_none_of_all_ended now _ hdur2 hrep2 hall
    rw [hd, hff] at hok
    simp at hok
  | some c =>
    rw [hd] at hok
    cases hl : ((sortSlice its).takeWhile (fun x => decide (countsAsEnded now x))).getLast? with
    | none => rw [hl] at hok; simp at hok
    | some p =>
      rw [hl] at hok
      simp only [Except.ok.injEq] at hok
      subst hok
      have hc := head?_dropWhile_not _ _ _ hd
      have hp := getLast?_takeWhile _ _ _ hl
      have hc2 : ¬ hasEnded now c := by
        rw [← countsAsEnded_iff c now (hrep2 c hc.1)]
        simpa using hc.2
      have hp2 : hasEnded now p := by
        rw [← countsAsEnded_iff p now (hrep2 p hp.1)]
        simpa using hp.2
      unfold hasEnded at hc2 hp2
      obtain ⟨pre, hpre⟩ := List.getLast?_eq_some_iff.1 hl
      obtain ⟨post, hpost⟩ : ∃ post,
          (sortSlice its).dropWhile (fun x => decide (countsAsEnded now x)) = c :: post := by
        cases hdw : (sortSlice its).dropWhile (fun x => decide (countsAsEnded now x)) with
        | nil => rw [hdw] at hd; simp at hd
        | cons a l =>
          rw [hdw] at hd
          simp only [List.head?_cons, Option.some.injEq] at hd
          exact ⟨l, by rw [hd]⟩
      refine ⟨hp2, not_le.1 hc2, ⟨pre, post, ?_⟩, ?_⟩
      · rw [← hsplit, hpre, hpost]; simp
      · intro heq
        simp only at heq
        rw [heq] at hc2
        exact hc2 hp2

/-- C16 amended, at an instance: the resolution of A and B on 2024-01-20. -/
theorem C16_previous_ended_current_not_witness :
    (∀ y ∈ [iterationA, iterationB], endRepresentable y) ∧
    (∀ y ∈ [iterationA, iterationB], 0 ≤ y.Duration) ∧
    GetIterations sortByStartDate [iterationA, iterationB] "F" jan20
      = .ok ⟨iterationB, iterationA, "F"⟩ ∧
    (endInstant iterationA ≤ jan20.unixNano ∧ jan20.unixNano < endInstant iterationB ∧
      (∃ pre post,
        sortByStartDate [iterationA, iterationB] = pre ++ iterationA :: iterationB :: post) ∧
      iterationB ≠ iterationA) :=
  ⟨by decide, by decide, by rfl,
   C16_previous_ended_current_not sortByStartDate sortByStartDate_sorts
     [iterationA, iterationB] "F" jan20 ⟨iterationB, iterationA, "F"⟩
     (by decide) (by decide) (by rfl)⟩

/-- C17, as the claim states it, fails: for the single iteration H (2024-02-01,
150000000000000 days) on 2024-01-20, `AddDate` wraps the end of H to a time long past, the
scan leaves current unset, the second pass selects H, and the resolver returns H as
current and previous where the resolver without the second pass fails. -/
theorem C17_second_pass_counterexample :
    (∀ y ∈ [iterationHuge], 0 ≤ y.Duration) ∧
    (scanFrom (sortByStartDate [iterationHuge]) jan20 (sortByStartDate [iterationHuge]) 0
      ⟨none, none⟩).current = none ∧
    firstFuture jan20 (sortByStartDate [iterationHuge]) = some iterationHuge ∧
    GetIterations sortByStartDate [iterationHuge] "F" jan20
      = .ok ⟨iterationHuge, iterationHuge, "F"⟩ ∧
    GetIterationsWithoutSecondPass sortByStartDate [iterationHuge] "F" jan20
      = .error .NoCurrentIteration := by
  refine ⟨by decide, by decide, by decide, by rfl, by rfl⟩

/-- C17, amended: for iterations whose ends start + duration days are times Go can hold,
and whatever order the sort gives equal start dates: with non-negative durations the
second pass never selects anything: when the scan leaves current unset, no iteration
starts after `now`, and the resolver returns what the resolver without the second pass
returns, result or failure. -/
theorem C17_second_pass_is_dead
    (sortSlice : List Iteration → List Iteration) (hsort : SortsByStartDate sortSlice)
    (its : List Iteration) (fieldID : String) (now : Time)
    (hrep : ∀ y ∈ its, endRepresentable y)
    (hdur : ∀ y ∈ its, 0 ≤ y.Duration) :
    ((scanFrom (sortSlice its) now (sortSlice its) 0 ⟨none, none⟩).current = none →
      firstFuture now (sortSlice its) = none) ∧
    GetIterations sortSlice its fieldID now
      = GetIterationsWithoutSecondPass sortSlice its fieldID now := by
  have hperm := hsort.perm its
  have hsec := secondPass_finds_nothing now (sortSlice its)
    (fun y hy => hdur y (hperm.mem_iff.1 hy)) (fun y hy => hrep y (hperm.mem_iff.1 hy))
  refine ⟨hsec, ?_⟩
  unfold GetIterations GetIterationsWithoutSecondPass resolve resolveWithoutSecondPass
  cases hcur : (scanFrom (sortSlice its) now (sortSlice its) 0 ⟨none, none⟩).current with
  | none =>
    have := hsec hcur
    simp [this, hcur]
  | some c => simp [hcur]

/-- C17 amended, at an instance: A and B on 2024-03-01, when both are over and the second
pass runs. -/
theorem C17_second_pass_is_dead_witness :
    (∀ y ∈ [iterationA, iterationB], endRepresentable y) ∧
    (∀ y ∈ [iterationA, iterationB], 0 ≤ y.Duration) ∧
    (scanFrom (sortByStartDate [iterationA, iterationB]) (timeOn 2024 3 1 0 (by decide))
      (sortByStartDate [iterationA, iterationB]) 0 ⟨none, none⟩).current = none ∧
    firstFuture (timeOn 2024 3 1 0 (by decide)) (sortByStartDate [iterationA, iterationB])
      = none ∧
    GetIterations sortByStartDate [iterationA, iterationB] "F"
        (timeOn 2024 3 1 0 (by decide))
      = GetIterationsWithoutSecondPass sortByStartDate [iterationA, iterationB] "F"
        (timeOn 2024 3 1 0 (by decide)) :=
  ⟨by decide, by decide, by decide,
   (C17_second_pass_is_dead sortByStartDate sortByStartDate_sorts [iterationA, iterationB]
     "F" (timeOn 2024 3 1 0 (by decide)) (by decide) (by decide)).1 (by decide),
   (C17_second_pass_is_dead sortByStartDate sortByStartDate_sorts [iterationA, iterationB]
     "F" (timeOn 2024 3 1 0 (by decide)) (by decide) (by decide)).2⟩

/-! ## Lemmas on the project URL parser -/

theorem TrimPrefix_append (p r : String) : TrimPrefix (p ++ r) p = r := by
  unfold TrimPrefix
  have h : p.data.isPrefixOf (p ++ r).data = true := by
    simp [String.data_append]
  rw [if_pos h]
  simp [String.data_append]

theorem containsChars_iff (sub l : List Char) : containsChars sub l = true ↔ sub <:+: l := by
  induction l with
  | nil => simp [containsChars]
  | cons c rest ih =>
    rw [containsChars, Bool.or_eq_true, ih, List.infix_cons_iff]
    simp

theorem splitChars_no_sep (sep : Char) (l cur : List Char) (h : sep ∉ l) :
    splitChars sep l cur = [cur ++ l] := by
  induction l generalizing cur with
  | nil => simp [splitChars]
  | cons c rest ih =>
    have hc : c ≠ sep := fun e => h (by simp [e])
    have hr : sep ∉ rest := fun e => h (List.mem_cons_of_mem _ e)
    rw [splitChars, if_neg hc, ih _ hr]
    simp

theorem splitChars_append (sep : Char) (a b cur : List Char) (h : sep ∉ a) :
    splitChars sep (a ++ sep :: b) cur = (cur ++ a) :: splitChars sep b [] := by
  induction a generalizing cur with
  | nil => simp [splitChars]
  | cons c rest ih =>
    have hc : c ≠ sep := fun e => h (by simp [e])
    have hr : sep ∉ rest := fun e => h (List.mem_cons_of_mem _ e)
    rw [List.cons_append, splitChars, if_neg hc, ih _ hr]
    simp

theorem TrimPrefix_of_not (s p : String) (h : p.data.isPrefixOf s.data = false) :
    TrimPrefix s p = s := by
  unfold TrimPrefix
  simp [h]

theorem TrimSuffix_slash (s : String) (t n : List Char) (hs : s.data = t ++ n)
    (hn : n ≠ []) (hno : '/' ∉ n) : TrimSuffix s "/" = s := by
  unfold TrimSuffix
  have h : ¬ (("/" : String).data.isSuffixOf s.data = true) := by
    rw [List.isSuffixOf_iff_suffix]
    rintro ⟨u, hu⟩
    have h1 : s.data.getLast? = some '/' := by
      rw [← hu]
      show (u ++ ['/']).getLast? = some '/'
      simp
    rw [hs, List.getLast?_append_of_ne_nil _ hn] at h1
    exact hno (List.mem_of_getLast?_eq_some h1)
  rw [if_neg h]

theorem Split_four (s a b c d : String)
    (ha : '/' ∉ a.data) (hb : '/' ∉ b.data) (hc : '/' ∉ c.data) (hd : '/' ∉ d.data)
    (hs : s.data = a.data ++ '/' :: (b.data ++ '/' :: (c.data ++ '/' :: d.data))) :
    Split s '/' = [a, b, c, d] := by
  unfold Split
  rw [hs, splitChars_append _ _ _ _ ha, splitChars_append _ _ _ _ hb,
    splitChars_append _ _ _ _ hc, splitChars_no_sep _ _ _ hd]
  rfl

theorem Split_five (s a b c d e : String)
    (ha : '/' ∉ a.data) (hb : '/' ∉ b.data) (hc : '/' ∉ c.data) (hd : '/' ∉ d.data)
    (he : '/' ∉ e.data)
    (hs : s.data =
      a.data ++ '/' :: (b.data ++ '/' :: (c.data ++ '/' :: (d.data ++ '/' :: e.data)))) :
    Split s '/' = [a, b, c, d, e] := by
  unfold Split
  rw [hs, splitChars_append _ _ _ _ ha, splitChars_append _ _ _ _ hb,
    splitChars_append _ _ _ _ hc, splitChars_append _ _ _ _ hd, splitChars_no_sep _ _ _ he]
  rfl

theorem Contains_of_data (s sub : String) (pre post : List Char)
    (hs : s.data = pre ++ sub.data ++ post) : Contains s sub = true := by
  unfold Contains
  rw [containsChars_iff, hs]
  exact List.infix_append _ _ _

theorem ParseProjectURL_plain (owner number : String)
    (ho : '/' ∉ owner.data) (hn : '/' ∉ number.data) (hne : number.data ≠ []) :
    ParseProjectURL ("https://github.com/" ++ owner ++ "/projects/" ++ number)
      = .ok (owner, number) := by
  have e0 : "https://github.com/" ++ owner ++ "/projects/" ++ number
      = "https://" ++ ("github.com/" ++ owner ++ "/projects/" ++ number) := by
    apply String.ext
    simp only [String.data_append, List.append_assoc]
    rfl
  have hd : ("github.com/" ++ owner ++ "/projects/" ++ number).data
      = ("github.com" : String).data ++ '/' :: (owner.data ++ '/' ::
          (("projects" : String).data ++ '/' :: number.data)) := by
    simp only [String.data_append, List.append_assoc]
    rfl
  have t1 := TrimPrefix_append "https://" ("github.com/" ++ owner ++ "/projects/" ++ number)
  have t2 : TrimPrefix ("github.com/" ++ owner ++ "/projects/" ++ number) "http://"
      = "github.com/" ++ owner ++ "/projects/" ++ number := by
    apply TrimPrefix_of_not
    rw [hd]
    rfl
  have t3 : TrimSuffix ("github.com/" ++ owner ++ "/projects/" ++ number) "/"
      = "github.com/" ++ owner ++ "/projects/" ++ number :=
    TrimSuffix_slash _ ("github.com/" ++ owner ++ "/projects/").data number.data
      (by simp only [String.data_append]) hne hn
  have sp := Split_four ("github.com/" ++ owner ++ "/projects/" ++ number)
    "github.com" owner "projects" number (by decide) ho (by decide) hn hd
  have c1 : Contains ("github.com/" ++ owner ++ "/projects/" ++ number) "github.com" = true :=
    Contains_of_data _ _ [] ('/' :: (owner.data ++ '/' ::
          (("projects" : String).data ++ '/' :: number.data))) (by rw [hd]; simp)
  have c2 : Contains ("github.com/" ++ owner ++ "/projects/" ++ number) "/projects/" = true :=
    Contains_of_data _ _ (("github.com/" : String).data ++ owner.data) number.data
      (by simp only [String.data_append, List.append_assoc])
  unfold ParseProjectURL
  simp only [e0, t1, t2, t3, sp, c1, c2]
  simp [scanParts]

theorem ParseProjectURL_users_or_orgs (kind owner number : String)
    (hk : kind = "users" ∨ kind = "orgs")
    (ho : '/' ∉ owner.data) (hn : '/' ∉ number.data) (hne : number.data ≠ [])
    (hop : owner ≠ "projects") :
    ParseProjectURL ("https://github.com/" ++ kind ++ "/" ++ owner ++ "/projects/" ++ number)
      = .ok (owner, number) := by
  have hkd : '/' ∉ kind.data := by
    rcases hk with rfl | rfl <;> decide
  have e0 : "https://github.com/" ++ kind ++ "/" ++ owner ++ "/projects/" ++ number
      = "https://" ++ ("github.com/" ++ kind ++ "/" ++ owner ++ "/projects/" ++ number) := by
    apply String.ext
    simp only [String.data_append, List.append_assoc]
    rfl
  have hd : ("github.com/" ++ kind ++ "/" ++ owner ++ "/projects/" ++ number).data
      = ("github.com" : String).data ++ '/' :: (kind.data ++ '/' :: (owner.data ++ '/' ::
          (("projects" : String).data ++ '/' :: number.data))) := by
    simp only [String.data_append, List.append_assoc]
    rfl
  have t1 := TrimPrefix_append "https://"
    ("github.com/" ++ kind ++ "/" ++ owner ++ "/projects/" ++ number)
  have t2 : TrimPrefix ("github.com/" ++ kind ++ "/" ++ owner ++ "/projects/" ++ number)
      "http://" = "github.com/" ++ kind ++ "/" ++ owner ++ "/projects/" ++ number := by
    apply TrimPrefix_of_not
    rw [hd]
    rfl
  have t3 : TrimSuffix ("github.com/" ++ kind ++ "/" ++ owner ++ "/projects/" ++ number) "/"
      = "github.com/" ++ kind ++ "/" ++ owner ++ "/projects/" ++ number :=
    TrimSuffix_slash _ ("github.com/" ++ kind ++ "/" ++ owner ++ "/projects/").data number.data
      (by simp only [String.data_append]) hne hn
  have sp := Split_five ("github.com/" ++ kind ++ "/" ++ owner ++ "/projects/" ++ number)
    "github.com" kind owner "projects" number (by decide) hkd ho (by decide) hn hd
  have c1 : Contains ("github.com/" ++ kind ++ "/" ++ owner ++ "/projects/" ++ number)
      "github.com" = true :=
    Contains_of_data _ _ [] ('/' :: (kind.data ++ '/' :: (owner.data ++ '/' ::
          (("projects" : String).data ++ '/' :: number.data)))) (by rw [hd]; simp)
  have c2 : Contains ("github.com/" ++ kind ++ "/" ++ owner ++ "/projects/" ++ number)
      "/projects/" = true :=
    Contains_of_data _ _ (("github.com/" : String).data ++ kind.data ++ ("/" : String).data
      ++ owner.data) number.data
      (by simp only [String.data_append, List.append_assoc])
  unfold ParseProjectURL
  simp only [e0, t1, t2, t3, sp, c1, c2]
  rcases hk with rfl | rfl <;> simp [scanParts, hop]

theorem TrimPrefix_isInfix (s p : String) : (TrimPrefix s p).data <:+: s.data := by
  unfold TrimPrefix
  split
  · exact (List.drop_suffix _ _).isInfix
  · exact List.infix_refl _

theorem TrimSuffix_isInfix (s p : String) : (TrimSuffix s p).data <:+: s.data := by
  unfold TrimSuffix
  split
  · exact (List.take_prefix _ _).isInfix
  · exact List.infix_refl _

theorem ParseProjectURL_invalid (url : String)
    (h : Contains url "github.com" = false ∨ Contains url "/projects/" = false) :
    ParseProjectURL url = .error .InvalidFormat := by
  have hinf : (TrimSuffix (TrimPrefix (TrimPrefix url "https://") "http://") "/").data
      <:+: url.data :=
    ((TrimSuffix_isInfix _ _).trans (TrimPrefix_isInfix _ _)).trans (TrimPrefix_isInfix _ _)
  have hmono : ∀ sub : String,
      Contains (TrimSuffix (TrimPrefix (TrimPrefix url "https://") "http://") "/") sub = true →
      Contains url sub = true := by
    intro sub hsub
    unfold Contains at hsub ⊢
    rw [containsChars_iff] at hsub ⊢
    exact hsub.trans hinf
  unfold ParseProjectURL
  simp only
  rw [if_pos]
  rcases h with h | h
  · have : Contains (TrimSuffix (TrimPrefix (TrimPrefix url "https://") "http://") "/")
        "github.com" = false := by
      by_contra hc
      have := hmono "github.com" (by simpa using hc)
      rw [h] at this
      exact Bool.false_ne_true this
    simp [this]
  · have : Contains (TrimSuffix (TrimPrefix (TrimPrefix url "https://") "http://") "/")
        "/projects/" = false := by
      by_contra hc
      have := hmono "/projects/" (by simpa using hc)
      rw [h] at this
      exact Bool.false_ne_true this
    simp [this]

/-! ## Properties of the project URL parser -/

/-- C14, evaluated where it fails, and what holds around it. For the owner named
`projects` the users form and the orgs form of the URL are taken for the plain form at
index 0, and the parser returns the owners `users` and `orgs` and the number `projects`
without error. For every owner and every non-empty number without `/`, the plain form is
parsed as claimed, and so are the users form and the orgs form when the owner is not
`projects`; every URL without `github.com` or without `/projects/` is refused as
invalid. -/
theorem C14_users_form_owner_named_projects :
    (ParseProjectURL "https://github.com/users/projects/projects/5"
        = .ok ("users", "projects") ∧
      ParseProjectURL "https://github.com/orgs/projects/projects/5"
        = .ok ("orgs", "projects")) ∧
    (∀ owner number : String, '/' ∉ owner.data → '/' ∉ number.data → number.data ≠ [] →
      ParseProjectURL ("https://github.com/" ++ owner ++ "/projects/" ++ number)
        = .ok (owner, number)) ∧
    (∀ owner number : String, '/' ∉ owner.data → '/' ∉ number.data → number.data ≠ [] →
      owner ≠ "projects" →
      ParseProjectURL ("https://github.com/users/" ++ owner ++ "/projects/" ++ number)
        = .ok (owner, number) ∧
      ParseProjectURL ("https://github.com/orgs/" ++ owner ++ "/projects/" ++ number)
        = .ok (owner, number)) ∧
    (∀ url : String, Contains url "github.com" = false ∨ Contains url "/projects/" = false →
      ParseProjectURL url = .error .InvalidFormat ∧
      ParseError.message .InvalidFormat
        = "invalid GitHub project URL format: must be github.com URL with /projects/") := by
  refine ⟨⟨by rfl, by rfl⟩, ParseProjectURL_plain, ?_, ?_⟩
  · intro owner number ho hn hne hop
    have e1 : "https://github.com/users/" ++ owner ++ "/projects/" ++ number
        = "https://github.com/" ++ "users" ++ "/" ++ owner ++ "/projects/" ++ number := by
      apply String.ext
      simp only [String.data_append, List.append_assoc]
      rfl
    have e2 : "https://github.com/orgs/" ++ owner ++ "/projects/" ++ number
        = "https://github.com/" ++ "orgs" ++ "/" ++ owner ++ "/projects/" ++ number := by
      apply String.ext
      simp only [String.data_append, List.append_assoc]
      rfl
    rw [e1, e2]
    exact ⟨ParseProjectURL_users_or_orgs "users" owner number (Or.inl rfl) ho hn hne hop,
      ParseProjectURL_users_or_orgs "orgs" owner number (Or.inr rfl) ho hn hne hop⟩
  · intro url h
    exact ⟨ParseProjectURL_invalid url h, rfl⟩

/-- C14, at instances: the three forms for the owner `octo` and the number `5`, and a
URL of another host. -/
theorem C14_users_form_owner_named_projects_witness :
    ParseProjectURL ("https://github.com/" ++ "octo" ++ "/projects/" ++ "5")
      = .ok ("octo", "5") ∧
    (ParseProjectURL ("https://github.com/users/" ++ "octo" ++ "/projects/" ++ "5")
        = .ok ("octo", "5") ∧
      ParseProjectURL ("https://github.com/orgs/" ++ "octo" ++ "/projects/" ++ "5")
        = .ok ("octo", "5")) ∧
    Contains "https://gitlab.com/octo/projects/5" "github.com" = false ∧
    ParseProjectURL "https://gitlab.com/octo/projects/5" = .error .InvalidFormat :=
  ⟨C14_users_form_owner_named_projects.2.1 "octo" "5" (by decide) (by decide) (by decide),
   C14_users_form_owner_named_projects.2.2.1 "octo" "5" (by decide) (by decide) (by decide)
     (by decide),
   by decide,
   (C14_users_form_owner_named_projects.2.2.2 "https://gitlab.com/octo/projects/5"
     (Or.inl (by decide))).1⟩

/-! ## Lemmas on the fetcher -/

/-- What the scan of the field values returns when it does not panic: the flag is set
before or by an iteration value of the target iteration, and the single-select values are
appended in order. -/
theorem scanFieldValueNodes_some (iterationID : String) (nodes : List Json) (hm : Bool)
    (acc : List FieldValue) (b : Bool) (out : List FieldValue)
    (h : scanFieldValueNodes iterationID nodes hm acc = some (b, out)) :
    b = (hm || nodes.any (isIterationValueOf iterationID)) ∧
      out = acc ++ nodes.filterMap selectValueOf := by
  induction nodes generalizing hm acc with
  | nil =>
    simp only [scanFieldValueNodes, Option.some.injEq, Prod.mk.injEq] at h
    simp [h.1, h.2]
  | cons fv rest ih =>
    unfold scanFieldValueNodes at h
    cases h1 : fv.asObject with
    | none => simp [h1] at h
    | some fieldValue =>
      simp only [h1] at h
      have hval : isIterationValueOf iterationID fv =
          (decide ((lookup fieldValue "__typename").asString
              = some "ProjectV2ItemFieldIterationValue") &&
            decide ((lookup fieldValue "iterationId").asString = some iterationID)) := by
        simp [isIterationValueOf, h1]
      have hflag : (if (lookup fieldValue "__typename").asString
            = some "ProjectV2ItemFieldIterationValue" then
          match (lookup fieldValue "iterationId").asString with
          | some iterationId => if iterationId = iterationID then true else hm
          | none => hm
        else hm) = (hm || isIterationValueOf iterationID fv) := by
        rw [hval]
        by_cases ht : (lookup fieldValue "__typename").asString
            = some "ProjectV2ItemFieldIterationValue"
        · cases hi : (lookup fieldValue "iterationId").asString with
          | none => simp [ht]
          | some i =>
            by_cases hii : i = iterationID
            · simp [ht, hii]
            · simp [ht, hii]
        · simp [ht]
      rw [hflag] at h
      by_cases hs : (lookup fieldValue "__typename").asString
          = some "ProjectV2ItemFieldSingleSelectValue"
      · simp only [hs, if_true] at h
        cases h2 : (lookup fieldValue "field").asObject with
        | none => simp [h2] at h
        | some field =>
          simp only [h2] at h
          cases h3 : (lookup field "id").asString with
          | none => simp [h3] at h
          | some id =>
            cases h4 : (lookup field "name").asString with
            | none => simp [h3, h4] at h
            | some name =>
              cases h5 : (lookup fieldValue "name").asString with
              | none => simp [h3, h4, h5] at h
              | some title =>
                simp only [h3, h4, h5] at h
                have hsel : selectValueOf fv =
                    some { TypeName := "ProjectV2ItemFieldSingleSelectValue"
                           Field := { ID := id, Name := name }
                           Title := title, Duration := 0, ID := "" } := by
                  simp [selectValueOf, h1, hs, h2, h3, h4, h5]
                obtain ⟨hb, hout⟩ := ih _ _ h
                refine ⟨?_, ?_⟩
                · rw [hb, List.any_cons, Bool.or_assoc]
                · rw [hout, List.filterMap_cons, hsel]
                  simp
      · simp only [hs, if_false] at h
        have hsel : selectValueOf fv = none := by
          simp [selectValueOf, h1, hs]
        obtain ⟨hb, hout⟩ := ih _ _ h
        refine ⟨?_, ?_⟩
        · rw [hb, List.any_cons, Bool.or_assoc]
        · rw [hout, List.filterMap_cons, hsel]

/-- The scan of well-formed field values does not panic. -/
theorem scanFieldValueNodes_isSome (iterationID : String) (nodes : List Json) (hm : Bool)
    (acc : List FieldValue) (hwf : ∀ fv ∈ nodes, wellFormedFieldValue fv = true) :
    ∃ b out, scanFieldValueNodes iterationID nodes hm acc = some (b, out) := by
  induction nodes generalizing hm acc with
  | nil => exact ⟨hm, acc, rfl⟩
  | cons fv rest ih =>
    have hfv := hwf fv (List.mem_cons_self _ _)
    have hrest : ∀ x ∈ rest, wellFormedFieldValue x = true :=
      fun x hx => hwf x (List.mem_cons_of_mem _ hx)
    unfold wellFormedFieldValue at hfv
    unfold scanFieldValueNodes
    cases h1 : fv.asObject with
    | none => simp [h1] at hfv
    | some fieldValue =>
      simp only [h1] at hfv ⊢
      by_cases ht : (lookup fieldValue "__typename").asString
          = some "ProjectV2ItemFieldSingleSelectValue"
      · simp only [ht, if_true] at hfv ⊢
        cases h2 : (lookup fieldValue "field").asObject with
        | none => simp [h2] at hfv
        | some field =>
          simp only [h2, Bool.and_eq_true, Option.isSome_iff_exists] at hfv ⊢
          obtain ⟨⟨⟨a, ha⟩, ⟨b, hb⟩⟩, ⟨c, hc⟩⟩ := hfv
          simp only [ha, hb, hc]
          exact ih _ _ hrest
      · simp only [ht, if_false]
        exact ih _ _ hrest

/-- An item yields an issue only if it is an issue of the target iteration (its content
has a string id and a numeric number and one of its field values is an iteration value of
the target iteration), and the issue it yields is the issue of the item. -/
theorem itemIssue_some (iterationID : String) (item : Json) (issue : Issue)
    (h : itemIssue iterationID item = some (some issue)) :
    (hasStringId item = true ∧ hasNumericNumber item = true ∧
      hasIterationValue iterationID item = true) ∧ issueOf item = some issue := by
  unfold itemIssue at h
  cases h1 : item.asObject with
  | none => simp [h1] at h
  | some itemData =>
    simp only [h1] at h
    cases h2 : (lookup itemData "content").asObject with
    | none => simp [h2] at h
    | some content =>
      simp only [h2] at h
      cases h3 : (lookup content "id").asString with
      | none => simp [h3] at h
      | some id =>
        simp only [h3] at h
        cases h4 : (lookup content "number").asNumber with
        | none => simp [h4] at h
        | some number =>
          simp only [h4] at h
          cases ht : (lookup content "title").asString with
          | none => simp [ht] at h
          | some title =>
            cases hst : (lookup content "state").asString with
            | none => simp [ht, hst] at h
            | some state =>
              simp only [ht, hst] at h
              cases h5 : (lookup itemData "fieldValues").asObject with
              | none => simp [h5] at h
              | some fvo =>
                simp only [h5] at h
                cases h6 : (lookup fvo "nodes").asArray with
                | none => simp [h6] at h
                | some fieldValues =>
                  cases h7 : (lookup itemData "id").asString with
                  | none => simp [h6, h7] at h
                  | some itemID =>
                    simp only [h6, h7] at h
                    cases h8 : scanFieldValueNodes iterationID fieldValues false [] with
                    | none => simp [h8] at h
                    | some r =>
                      obtain ⟨b, out⟩ := r
                      simp only [h8] at h
                      obtain ⟨hb, hout⟩ := scanFieldValueNodes_some _ _ _ _ _ _ h8
                      by_cases hbt : b = true
                      · simp only [hbt, if_true, Option.some.injEq] at h
                        rw [hbt] at hb
                        refine ⟨⟨by simp [hasStringId, itemContent, h1, h2, h3],
                          by simp [hasNumericNumber, itemContent, h1, h2, h4], ?_⟩, ?_⟩
                        · simp [hasIterationValue, itemFieldValues, h1, h5, h6]
                          simpa using hb.symm
                        · rw [← h, hout]
                          simp [issueOf, itemContent, itemFieldValues, h1, h2, h3, h4, ht, hst,
                            h5, h6, h7]
                      · simp [hbt] at h

/-- A well-formed item never makes the loop panic, and yields an issue exactly when its
content has a string id and a numeric number and one of its field values is an iteration
value of the target iteration. -/
theorem itemIssue_wellFormed (iterationID : String) (item : Json)
    (hwf : wellFormedItem item = true) :
    ∃ r, itemIssue iterationID item = some r ∧
      (r.isSome = (hasStringId item && hasNumericNumber item &&
        hasIterationValue iterationID item)) := by
  unfold wellFormedItem at hwf
  unfold itemIssue
  cases h1 : item.asObject with
  | none => simp [h1] at hwf
  | some itemData =>
    simp only [h1] at hwf ⊢
    cases h2 : (lookup itemData "content").asObject with
    | none =>
      exact ⟨none, rfl, by simp [hasStringId, itemContent, h1, h2]⟩
    | some content =>
      simp only [h2] at hwf ⊢
      cases h3 : (lookup content "id").asString with
      | none => exact ⟨none, rfl, by simp [hasStringId, itemContent, h1, h2, h3]⟩
      | some id =>
        simp only [h3]
        cases h4 : (lookup content "number").asNumber with
        | none =>
          exact ⟨none, rfl, by simp [hasNumericNumber, itemContent, h1, h2, h4]⟩
        | some number =>
          simp only [h4]
          have hid : hasStringId item = true := by
            simp [hasStringId, itemContent, h1, h2, h3]
          have hnum : hasNumericNumber item = true := by
            simp [hasNumericNumber, itemContent, h1, h2, h4]
          simp only [hid, hnum, Bool.and_self, if_true, Bool.and_eq_true,
            Option.isSome_iff_exists] at hwf
          obtain ⟨⟨⟨⟨title, ht⟩, ⟨state, hs⟩⟩, ⟨itemID, hi⟩⟩, hfv⟩ := hwf
          simp only [ht, hs, hi]
          cases h5 : itemFieldValues item with
          | none => simp [h5] at hfv
          | some fieldValues =>
            simp only [h5, List.all_eq_true] at hfv
            simp only [itemFieldValues, h1, Option.bind_eq_bind, Option.some_bind] at h5
            cases h6 : (lookup itemData "fieldValues").asObject with
            | none => simp [h6] at h5
            | some fvo =>
              simp only [h6, Option.some_bind] at h5
              simp only [h5]
              obtain ⟨b, out, hscan⟩ :=
                scanFieldValueNodes_isSome iterationID fieldValues false [] hfv
              have hb := (scanFieldValueNodes_some _ _ _ _ _ _ hscan).1
              simp only [hscan]
              have hiv : hasIterationValue iterationID item
                  = fieldValues.any (isIterationValueOf iterationID) := by
                simp [hasIterationValue, itemFieldValues, h1, h6, h5]
              rw [hiv]
              simp only [Bool.false_or] at hb
              rw [← hb]
              cases b
              · exact ⟨none, by simp, by simp⟩
              · exact ⟨_, if_pos rfl, by simp [hid, hnum]⟩

/-- What a well-formed item yields: its issue when it is an issue of the target
iteration, nothing when it is not. -/
theorem itemIssue_eq (iterationID : String) (item : Json)
    (hwf : wellFormedItem item = true) :
    itemIssue iterationID item =
      some (if isIssueOfIteration iterationID item = true then issueOf item else none) := by
  obtain ⟨r, hr, hsome⟩ := itemIssue_wellFormed iterationID item hwf
  cases r with
  | none =>
    have : isIssueOfIteration iterationID item = false := by
      unfold isIssueOfIteration; rw [← hsome]; rfl
    rw [hr, this]
    simp
  | some issue =>
    have : isIssueOfIteration iterationID item = true := by
      unfold isIssueOfIteration; rw [← hsome]; rfl
    rw [this, (itemIssue_some iterationID item issue hr).2, hr]
    simp

/-- The loop over the items of a page appends the matching issues, when no item makes it
panic. -/
theorem pageItems_eq (iterationID : String) (nodes : List Json) (allItems : List Issue)
    (h : ∀ item ∈ nodes, wellFormedItem item = true) :
    pageItems iterationID nodes allItems
      = some (allItems ++ matchingIssues iterationID nodes) := by
  induction nodes generalizing allItems with
  | nil => simp [pageItems, matchingIssues]
  | cons item rest ih =>
    have hr := itemIssue_eq iterationID item (h item (List.mem_cons_self _ _))
    have hrest := fun a => ih a (fun x hx => h x (List.mem_cons_of_mem _ hx))
    unfold pageItems
    cases hi : (if isIssueOfIteration iterationID item = true then issueOf item else none) with
    | none =>
      rw [hi] at hr
      simp only [hr, hrest]
      simp [matchingIssues, List.filterMap_cons, hi]
    | some issue =>
      rw [hi] at hr
      simp only [hr, hrest]
      simp [matchingIssues, List.filterMap_cons, hi]

theorem readPage_pageResponse (p : Page) (cursor : String) :
    readPage (pageResponse p) cursor
      = some (p.hasNextPage, p.endCursor.getD cursor, p.nodes) := by
  cases h : p.endCursor <;>
    simp [readPage, pageResponse, lookup, Json.asObject, Json.asBool, Json.asString,
      Json.asArray, h]

/-- The loop walks through the pages that are left: from a state reached after the pages
`done`, it requests the pages `rest` in order and returns the issues gathered so far
followed by the matching issues of `rest`. -/
theorem fetchPages_walk
    (fetch : Nat → ItemsRequest → Except String (List (String × Json)))
    (projectID iterationID : String) (pages : List Page)
    (hflags : ∀ k p, pages[k]? = some p → p.hasNextPage = decide (k + 1 < pages.length))
    (hcursor : ∀ k p, pages[k]? = some p → k + 1 < pages.length →
      ∃ c, p.endCursor = some c ∧ c ≠ "")
    (hfetch : ∀ k p, pages[k]? = some p →
      fetch k { projectId := projectID, after := expectedAfter pages k }
        = .ok (pageResponse p))
    (hitems : ∀ p ∈ pages, ∀ item ∈ p.nodes, wellFormedItem item = true) :
    ∀ (rest done : List Page) (fuel : Nat) (allItems : List Issue) (cursor : String)
      (requests : List ItemsRequest),
      pages = done ++ rest → rest ≠ [] → requests.length = done.length →
      (if cursor ≠ "" then some cursor else none) = expectedAfter pages done.length →
      rest.length ≤ fuel →
      fetchPages fetch projectID iterationID fuel allItems cursor requests =
        (.returned (allItems ++ rest.flatMap (fun p => matchingIssues iterationID p.nodes)),
         requests ++ (List.range' done.length rest.length).map
           (fun k => { projectId := projectID, after := expectedAfter pages k })) := by
  intro rest
  induction rest with
  | nil => intro _ _ _ _ _ _ h; exact absurd rfl h
  | cons p rest' ih =>
    intro done fuel allItems cursor requests hpages _ hlen hafter hfuel
    have hp : pages[done.length]? = some p := by
      rw [hpages, List.getElem?_append_right (le_refl _)]; simp
    have hpm : p ∈ pages := by rw [hpages]; simp
    have hplen : pages.length = done.length + (rest'.length + 1) := by
      rw [hpages]; simp
    cases fuel with
    | zero => simp at hfuel
    | succ fuel' =>
      have hf := hfetch _ _ hp
      have hflag := hflags _ _ hp
      rw [fetchPages]
      simp only [hlen, hafter, hf, readPage_pageResponse,
        pageItems_eq iterationID p.nodes allItems (hitems p hpm)]
      by_cases hr : rest' = []
      · subst hr
        have hfalse : p.hasNextPage = false := by
          rw [hflag]; simp [hplen]
        simp [hfalse, List.range']
      · have hpos : 0 < rest'.length := List.length_pos.2 hr
        have htrue : p.hasNextPage = true := by
          rw [hflag]; simp only [decide_eq_true_eq]; omega
        obtain ⟨c, hc, hcne⟩ := hcursor _ _ hp (by omega)
        have hnext := ih (done ++ [p]) fuel'
          (allItems ++ matchingIssues iterationID p.nodes) (p.endCursor.getD cursor)
          (requests ++ [{ projectId := projectID, after := expectedAfter pages done.length }])
          (by rw [hpages]; simp) hr (by simp [hlen])
          (by
            simp only [List.length_append, List.length_singleton]
            rw [hc]
            simp [expectedAfter, hp, hc, hcne])
          (by simp only [List.length_cons] at hfuel; omega)
        simp only [htrue, if_true]
        rw [hnext]
        simp [List.range'_succ]

/-- An integer that fits in an `int` is converted to itself. -/
theorem intOfFloat64_intCast (n : Int)
    (h1 : -9223372036854775808 ≤ n) (h2 : n < 9223372036854775808) :
    intOfFloat64 (n : ℚ) = n := by
  unfold intOfFloat64
  simp only [Rat.num_intCast, Rat.den_intCast, Nat.cast_one, Int.tdiv_one]
  rw [if_pos ⟨h1, h2⟩]

/-! ## Properties of the fetcher -/

/-- C11, as the claim states it, fails. Of three pages with the flags true, true, false,
the second without `endCursor`, the third request carries the `endCursor` of the first
page, not that of the second. And of three such pages, the second with an item that has
an id and a number but no title, only two are requested and nothing is returned: the call
panics. -/
theorem C11_pagination_counterexample :
    (pagesWithoutCursor.map (fun p => p.hasNextPage) = [true, true, false] ∧
      (GetIterationItems (pagesInOrder pagesWithoutCursor) "P" "A" 3).2
        = [⟨"P", none⟩, ⟨"P", some "c1"⟩, ⟨"P", some "c1"⟩] ∧
      pagesWithoutCursor.map (fun p => p.endCursor) = [some "c1", none, none]) ∧
    (pagesWithUntitled.map (fun p => p.hasNextPage) = [true, true, false] ∧
      GetIterationItems (pagesInOrder pagesWithUntitled) "P" "A" 3
        = (.panicked, [⟨"P", none⟩, ⟨"P", some "c1"⟩])) := by
  refine ⟨⟨by decide, by rfl, by decide⟩, by decide, by rfl⟩

/-- C11, amended: for pages whose items have the shape the query gives them and whose
`endCursor`, on every page but the last, is a non-empty string: when the server answers
request `k` (the first without cursor, every later one with the `endCursor` of the page
before) with page `k` of a finite sequence of pages whose `hasNextPage` flags are true on
all pages but the last, `GetIterationItems` makes exactly these requests, in order, and
returns the issues of the items of the target iteration of the first page, then of the
second, and so on, each item counted once. The loop is given at least as many rounds as
there are pages. -/
theorem C11_pagination_accumulates
    (fetch : Nat → ItemsRequest → Except String (List (String × Json)))
    (projectID iterationID : String) (pages : List Page) (fuel : Nat)
    (hne : pages ≠ [])
    (hflags : ∀ k p, pages[k]? = some p → p.hasNextPage = decide (k + 1 < pages.length))
    (hcursor : ∀ k p, pages[k]? = some p → k + 1 < pages.length →
      ∃ c, p.endCursor = some c ∧ c ≠ "")
    (hfetch : ∀ k p, pages[k]? = some p →
      fetch k { projectId := projectID, after := expectedAfter pages k }
        = .ok (pageResponse p))
    (hitems : ∀ p ∈ pages, ∀ item ∈ p.nodes, wellFormedItem item = true)
    (hfuel : pages.length ≤ fuel) :
    GetIterationItems fetch projectID iterationID fuel =
      (.returned (pages.flatMap (fun p => matchingIssues iterationID p.nodes)),
       expectedRequests projectID pages) := by
  have h := fetchPages_walk fetch projectID iterationID pages hflags hcursor hfetch hitems
    pages [] fuel [] "" [] rfl hne rfl (by simp [expectedAfter]) hfuel
  unfold GetIterationItems expectedRequests
  rw [h, List.range_eq_range']
  simp

/-- C11 amended, at an instance: three pages with the flags true, true, false; the three
requests carry no cursor, then `c1`, then `c2`, and the issues 1, 3 and 4 of the iteration
A are returned in page order. -/
theorem C11_pagination_accumulates_witness :
    threePages ≠ [] ∧ threePages.map (fun p => p.hasNextPage) = [true, true, false] ∧
    GetIterationItems threePageServer "P" "A" 3 =
      (.returned (threePages.flatMap (fun p => matchingIssues "A" p.nodes)),
       expectedRequests "P" threePages) ∧
    expectedRequests "P" threePages = [⟨"P", none⟩, ⟨"P", some "c1"⟩, ⟨"P", some "c2"⟩] ∧
    (threePages.flatMap (fun p => matchingIssues "A" p.nodes)).map
      (fun i => (i.ID, i.Number, i.ProjectItems.Nodes.map (fun n => n.ID)))
      = [("I_1", 1, ["PVTI_1"]), ("I_3", 3, ["PVTI_3"]), ("I_4", 4, ["PVTI_4"])] :=
  ⟨by simp [threePages], by decide,
   C11_pagination_accumulates threePageServer "P" "A" threePages 3
     (by simp [threePages])
     (by
       intro k p h
       rcases k with _ | _ | _ | k <;> simp [threePages] at h <;> subst h <;>
         simp [threePages])
     (by
       intro k p h hk
       rcases k with _ | _ | _ | k <;> simp [threePages] at h hk <;> subst h <;> simp)
     (by
       intro k p h
       rcases k with _ | _ | _ | k <;> simp [threePages] at h <;> subst h <;> rfl)
     (by
       intro p hp item hitem
       simp only [threePages, List.mem_cons, List.mem_singleton, List.not_mem_nil,
         or_false] at hp
       rcases hp with rfl | rfl | rfl <;>
         simp only [List.mem_cons, List.mem_singleton, List.not_mem_nil, or_false] at hitem
       · rcases hitem with rfl | rfl | rfl <;> rfl
       · rcases hitem with rfl | rfl <;> rfl
       · subst hitem; rfl)
     (by decide),
   by decide, by decide⟩

/-- C12, as the claim states it, fails: the content of this item has a string id and a
numeric number, and the item has an iteration value of the target iteration A, but its
content has no title: the loop panics at the item, and `GetIterationItems` returns no
issue for it. -/
theorem C12_item_yields_issue_counterexample :
    (hasStringId untitledItem = true ∧ hasNumericNumber untitledItem = true ∧
      hasIterationValue "A" untitledItem = true) ∧
    itemIssue "A" untitledItem = none ∧
    GetIterationItems
        (pagesInOrder [{ hasNextPage := false, endCursor := none, nodes := [untitledItem] }])
        "P" "A" 1
      = (.panicked, [⟨"P", none⟩]) := by
  refine ⟨⟨by rfl, by rfl, by rfl⟩, by rfl, by rfl⟩

/-- C12, amended: for items of the shape the query gives them. For every target iteration
id: an item that is an object without content, without a string id or without a numeric
number is passed over without error; an item yields an issue only if its content has a
string id and a numeric number and one of its field values is of the iteration type with
the target `iterationId`, and the issue is then the issue of the item (its id, number,
title and state, with the item and its single-select field values as its one project
item); an item of the shape the query gives yields its issue if that holds and is passed
over without error if not; for one page of such items `GetIterationItems` returns the
issues of the items for which it holds, in order, and an issue is returned exactly when it
is the issue of such an item of the page; and a number that is an integer of 64 bits is
the number of the issue. -/
theorem C12_item_yields_issue_iff (iterationID : String) :
    (∀ item itemData, item.asObject = some itemData →
      (itemContent item = none ∨ hasStringId item = false ∨ hasNumericNumber item = false) →
      itemIssue iterationID item = some none) ∧
    (∀ item issue, itemIssue iterationID item = some (some issue) →
      (hasStringId item = true ∧ hasNumericNumber item = true ∧
        hasIterationValue iterationID item = true) ∧ issueOf item = some issue) ∧
    (∀ item, wellFormedItem item = true →
      ((hasStringId item = true ∧ hasNumericNumber item = true ∧
          hasIterationValue iterationID item = true) →
        ∃ issue, issueOf item = some issue ∧
          itemIssue iterationID item = some (some issue)) ∧
      (¬ (hasStringId item = true ∧ hasNumericNumber item = true ∧
          hasIterationValue iterationID item = true) →
        itemIssue iterationID item = some none)) ∧
    (∀ (fetch : Nat → ItemsRequest → Except String (List (String × Json)))
        (projectID : String) (nodes : List Json) (endCursor : Option String) (fuel : Nat),
      fetch 0 { projectId := projectID, after := none }
        = .ok (pageResponse { hasNextPage := false, endCursor := endCursor, nodes := nodes }) →
      (∀ item ∈ nodes, wellFormedItem item = true) →
      GetIterationItems fetch projectID iterationID (fuel + 1)
        = (.returned (matchingIssues iterationID nodes),
           [{ projectId := projectID, after := none }]) ∧
      (∀ issue, issue ∈ matchingIssues iterationID nodes ↔
        ∃ item ∈ nodes, (hasStringId item = true ∧ hasNumericNumber item = true ∧
          hasIterationValue iterationID item = true) ∧ issueOf item = some issue)) ∧
    (∀ n : Int, -9223372036854775808 ≤ n → n < 9223372036854775808 →
      intOfFloat64 (n : ℚ) = n) := by
  refine ⟨?_, ?_, ?_, ?_, intOfFloat64_intCast⟩
  · intro item itemData h1 hskip
    unfold itemIssue
    simp only [h1]
    cases h2 : (lookup itemData "content").asObject with
    | none => rfl
    | some content =>
      simp only
      cases h3 : (lookup content "id").asString with
      | none => rfl
      | some id =>
        simp only
        cases h4 : (lookup content "number").asNumber with
        | none => rfl
        | some number =>
          exfalso
          simp [itemContent, hasStringId, hasNumericNumber, h1, h2, h3, h4] at hskip
  · intro item issue h
    exact itemIssue_some iterationID item issue h
  · intro item hwf
    have heq := itemIssue_eq iterationID item hwf
    obtain ⟨r, hr, hsome⟩ := itemIssue_wellFormed iterationID item hwf
    constructor
    · rintro ⟨h1, h2, h3⟩
      rw [h1, h2, h3] at hsome
      cases r with
      | none => simp at hsome
      | some issue => exact ⟨issue, (itemIssue_some iterationID item issue hr).2, hr⟩
    · intro hnot
      cases r with
      | none => exact hr
      | some issue =>
        exfalso
        exact hnot (itemIssue_some iterationID item issue hr).1
  · intro fetch projectID nodes endCursor fuel hfetch hwf
    constructor
    · have h := fetchPages_walk fetch projectID iterationID
        [{ hasNextPage := false, endCursor := endCursor, nodes := nodes }]
        (by
          intro k p hk
          rcases k with _ | k <;> simp at hk
          subst hk; simp)
        (by intro k p _ hk; simp at hk)
        (by
          intro k p hk
          rcases k with _ | k <;> simp at hk
          subst hk
          simpa [expectedAfter] using hfetch)
        (by
          intro p hp item hitem
          simp only [List.mem_singleton] at hp
          subst hp
          exact hwf item hitem)
        [{ hasNextPage := false, endCursor := endCursor, nodes := nodes }] [] (fuel + 1) [] ""
        [] rfl (by simp) rfl (by simp [expectedAfter]) (by simp)
      unfold GetIterationItems
      rw [h]
      simp [expectedAfter, List.range']
    · intro issue
      unfold matchingIssues
      rw [List.mem_filterMap]
      constructor
      · rintro ⟨item, hmem, hi⟩
        refine ⟨item, hmem, ?_⟩
        by_cases hc : isIssueOfIteration iterationID item = true
        · rw [if_pos hc] at hi
          unfold isIssueOfIteration at hc
          simp only [Bool.and_eq_true] at hc
          exact ⟨⟨hc.1.1, hc.1.2, hc.2⟩, hi⟩
        · rw [if_neg hc] at hi
          simp at hi
      · rintro ⟨item, hmem, ⟨h1, h2, h3⟩, hi⟩
        refine ⟨item, hmem, ?_⟩
        have hc : isIssueOfIteration iterationID item = true := by
          unfold isIssueOfIteration; rw [h1, h2, h3]; rfl
        rw [if_pos hc, hi]

/-- C12 amended, at an instance: of the three items of the first of the three pages, issue
1 of iteration A yields its issue for the target A, the pull request (no id) is passed
over, and issue 2 of iteration B is passed over. -/
theorem C12_item_yields_issue_iff_witness :
    wellFormedItem (issueItem 1 "A") = true ∧
    (hasStringId (issueItem 1 "A") = true ∧ hasNumericNumber (issueItem 1 "A") = true ∧
      hasIterationValue "A" (issueItem 1 "A") = true) ∧
    (∃ issue, issueOf (issueItem 1 "A") = some issue ∧
      itemIssue "A" (issueItem 1 "A") = some (some issue)) ∧
    issueOf (issueItem 1 "A") =
      some { ID := "I_1", Number := 1, Title := "Write the parser", State := "OPEN"
             Repository := { Name := "", Owner := { Login := "" } }
             ProjectItems :=
               { Nodes := [{ ID := "PVTI_1"
                             FieldValues :=
                               { Nodes := [{ TypeName := "ProjectV2ItemFieldSingleSelectValue"
                                             Field := { ID := "FS", Name := "Status" }
                                             Title := "In Progress", Duration := 0
                                             ID := "" }] } }] } } ∧
    hasStringId pullRequestItem = false ∧ itemIssue "A" pullRequestItem = some none ∧
    hasIterationValue "A" (issueItem 2 "B") = false ∧
    itemIssue "A" (issueItem 2 "B") = some none :=
  ⟨by rfl, ⟨by rfl, by rfl, by rfl⟩,
   ((C12_item_yields_issue_iff "A").2.2.1 (issueItem 1 "A") (by rfl)).1
     ⟨by rfl, by rfl, by rfl⟩,
   by decide,
   by rfl,
   (C12_item_yields_issue_iff "A").1 pullRequestItem _ rfl (Or.inr (Or.inl (by rfl))),
   by rfl,
   ((C12_item_yields_issue_iff "A").2.2.1 (issueItem 2 "B") (by rfl)).2
     (by
       intro h
       have : hasIterationValue "A" (issueItem 2 "B") = false := by rfl
       rw [this] at h
       exact Bool.false_ne_true h.2.2)⟩

end GhProjects
